import Mathlib

/-!
# starry: parser and stack machine

A shallow embedding of `starry.go` (package `starry`): the instruction set with
its `Decode` method, the stack machine (`VM`, `step`, `Run`, `RunWithDebug`) and
the parser (`Parser`, `Parse`, `getInstFor*`).

Conventions of the embedding

* Go `int` is the 64-bit two's-complement integer.  Values are `Int`; every
  arithmetic result the machine stores goes through `wrapInt`.
* The stack keeps Go's slice order: the bottom is the head of the list and the
  top is its last element (`v.Stack[len(v.Stack)-1]`).
* `map[int]int` is an association list read with `List.lookup`; the nil map is
  the empty list.
* `panic(VMError{..})` leaves the machine in the state reached so far, so every
  machine operation returns the machine next to its result.
* `range p.Src` walks the runes of the source; the parser compares them with
  ASCII characters only, so the source is a list of characters.
-/

namespace Starry

/-! ## Machine integers -/

/-- Smallest `int` (64 bits): `-2^63`. -/
def minInt : Int := -9223372036854775808

/-- Largest `int` (64 bits): `2^63 - 1`. -/
def maxInt : Int := 9223372036854775807

/-- Two's-complement wrap-around of a mathematical integer to an `int`:
`(x + 2^63) mod 2^64 - 2^63`. -/
def wrapInt (x : Int) : Int :=
  (x + 9223372036854775808) % 18446744073709551616 - 9223372036854775808

/-- The values an `int` variable can hold. -/
def IsInt (x : Int) : Prop := minInt ≤ x ∧ x ≤ maxInt

instance (x : Int) : Decidable (IsInt x) := by unfold IsInt; exact inferInstance

/-! ## Instructions -/

/-- The seventeen struct types that implement `Instruction`; `Other` stands for
a value of the interface that is none of them (it carries what its own
`Decode` returns) and reaches the `default` case of `step`. -/
inductive Instruction where
  | Nop
  | Push (Value : Int)
  | Pop
  | Dup
  | Swap
  | Rotate
  | Plus
  | Minus
  | Mul
  | Div
  | Mod
  | Label (Value : Int)
  | JumpNZ (Value : Int)
  | OutputN
  | OutputC
  | InputN
  | InputC
  | Other (decoded : String)
  deriving DecidableEq, Repr

/-- The nil interface value, the zero value of `var inst Instruction`; `step`
sends it to its `default` case like any other unknown value. -/
def nilInst : Instruction := .Other ""

/-- Method `Decode` of each instruction type; `%d` prints the decimal of the int. -/
def Instruction.Decode : Instruction → String
  | .Nop => "nop"
  | .Push i => "push " ++ toString i
  | .Pop => "pop"
  | .Dup => "dup"
  | .Swap => "swap"
  | .Rotate => "rotate"
  | .Plus => "+"
  | .Minus => "-"
  | .Mul => "*"
  | .Div => "/"
  | .Mod => "%"
  | .Label i => "label " ++ toString i
  | .JumpNZ i => "jumpnz " ++ toString i
  | .OutputN => "output number"
  | .OutputC => "output character"
  | .InputN => "input number"
  | .InputC => "input character"
  | .Other d => d

/-! ## The machine -/

/-- Struct `VMError`: message `m` and the program counter `p`. -/
structure VMError where
  m : String
  p : Int
  deriving DecidableEq, Repr

/-- Method `Error` of `VMError`: `"pc=%d %s"`. -/
def VMError.Error (e : VMError) : String := "pc=" ++ toString e.p ++ " " ++ e.m

/-- The reader behind `v.Stdin`: the runes still to be read, and whether the
reader implements `io.RuneScanner` (a `bytes.Buffer` does, `os.Stdin` does
not), which decides whether `fmt.Fscanf` can give back its look-ahead rune. -/
structure Reader where
  runes : List Char
  canUnread : Bool
  deriving DecidableEq, Repr

/-- Struct `VM`.  `Stdout` is the text written to the writer so far. -/
structure VM where
  Stack : List Int
  PC : Int
  Inst : List Instruction
  Label : List (Int × Int)
  Stdin : Reader
  Stdout : String
  deriving DecidableEq, Repr

/-- `NewVM`, with the standard streams: nothing read yet from `os.Stdin`
(its content is `input`), nothing written yet. -/
def NewVM (inst : List Instruction) (label : List (Int × Int)) (input : List Char) : VM :=
  { Stack := [], PC := 0, Inst := inst, Label := label,
    Stdin := { runes := input, canUnread := false }, Stdout := "" }

/-- `SetStdin`. -/
def VM.SetStdin (v : VM) (r : Reader) : VM := { v with Stdin := r }

/-- `SetStdout` with a fresh buffer holding `w`. -/
def VM.SetStdout (v : VM) (w : String) : VM := { v with Stdout := w }

/-- A machine operation that may panic with a `VMError`: it returns the value
or the error, and the machine as the operation left it. -/
def Exec (α : Type) : Type := VM → Except VMError α × VM

/-- Sequencing: a panic stops the rest of the operation. -/
def Exec.bind {α β : Type} (m : Exec α) (f : α → Exec β) : Exec β := fun v =>
  match m v with
  | (.ok a, v1) => f a v1
  | (.error e, v1) => (.error e, v1)

instance : Monad Exec where
  pure a := fun v => (.ok a, v)
  bind := Exec.bind

/-- `panic(VMError{m: msg, p: v.PC})`. -/
def vmPanic {α : Type} (msg : String) : Exec α := fun v => (.error { m := msg, p := v.PC }, v)

/-- Method `push`. -/
def push (value : Int) : Exec Unit := fun v => (.ok (), { v with Stack := v.Stack ++ [value] })

/-- Method `pop`. -/
def pop : Exec Int := fun v =>
  if v.Stack.length < 1 then
    (.error { m := "insufficient stack size", p := v.PC }, v)
  else
    (.ok (v.Stack.getLast?.getD 0), { v with Stack := v.Stack.dropLast })

/-- Method `dup`. -/
def dup : Exec Unit := do
  let top ← pop
  push top
  push top

/-- Method `swap`. -/
def swap : Exec Unit := do
  let x ← pop
  let y ← pop
  push x
  push y

/-- Method `rotate`. -/
def rotate : Exec Unit := do
  let x ← pop
  let y ← pop
  let z ← pop
  push x
  push z
  push y

/-- Method `plus`. -/
def plus : Exec Unit := do
  let x ← pop
  let y ← pop
  push (wrapInt (y + x))

/-- Method `minus`. -/
def minus : Exec Unit := do
  let x ← pop
  let y ← pop
  push (wrapInt (y - x))

/-- Method `mul`. -/
def mul : Exec Unit := do
  let x ← pop
  let y ← pop
  push (wrapInt (y * x))

/-- Method `div`: Go's `/` truncates toward zero and wraps on `minInt / -1`. -/
def div : Exec Unit := do
  let x ← pop
  let y ← pop
  if x = 0 then
    vmPanic "division by zero"
  else
    push (wrapInt (Int.tdiv y x))

/-- Method `mod`: Go's `%` is the remainder of the truncated division. -/
def mod : Exec Unit := do
  let x ← pop
  let y ← pop
  if x = 0 then
    vmPanic "division by zero"
  else
    push (wrapInt (Int.tmod y x))

/-- Method `jumpnz`. -/
def jumpnz (addr : Int) : Exec Unit := fun v =>
  match v.Label.lookup addr with
  | none => (.error { m := "jump target is not found", p := v.PC }, v)
  | some target =>
    match pop v with
    | (.error e, v1) => (.error e, v1)
    | (.ok top, v1) =>
      if top ≠ 0 then (.ok (), { v1 with PC := target })
      else (.ok (), { v1 with PC := v1.PC + 1 })

/-! ## Formatted output and input (package `fmt`) -/

/-- The rune `%c` writes for an int: the code point itself, and U+FFFD for a
value that is not a Unicode scalar value (negative, surrogate or too large). -/
def fmtC (top : Int) : Char :=
  if 0 ≤ top ∧ top.toNat.isValidChar then Char.ofNat top.toNat else Char.ofNat 0xFFFD

/-- The text `%d` writes for an int. -/
def fmtD (top : Int) : String := toString top

/-- `fmt.Fprintf(v.Stdout, ..)`: append to the text written so far. -/
def write (s : String) : Exec Unit := fun v => (.ok (), { v with Stdout := v.Stdout ++ s })

/-- The space table of `fmt` scanning (`isSpace` in `fmt/scan.go`). -/
def isSpace (r : Char) : Bool :=
  let n := r.toNat
  (0x09 ≤ n && n ≤ 0x0d) || n == 0x20 || n == 0x85 || n == 0xA0 || n == 0x1680 ||
    (0x2000 ≤ n && n ≤ 0x200a) || n == 0x2028 || n == 0x2029 || n == 0x202f ||
    n == 0x205f || n == 0x3000

/-- `SkipSpace` of a `Fscanf` scan (newlines are not spaces there): the flag is
false when it stopped on "unexpected newline"; the list is what is left with
the look-ahead rune given back. -/
def skipSpace : List Char → Bool × List Char
  | [] => (true, [])
  | r :: rest =>
    if r = Char.ofNat 13 ∧ rest.head? = some (Char.ofNat 10) then skipSpace rest
    else if r = Char.ofNat 10 then (false, rest)
    else if isSpace r then skipSpace rest
    else (true, r :: rest)

/-- The runes `scanNumber` accepts for the verb `%d`: the decimal digits
(`decimalDigits`; the underscore is a digit rune for the verb `%v` only). -/
def isNumberRune (r : Char) : Bool := r.isDigit

/-- `strconv.ParseInt(tok, 10, 64)` on the digits of a token: their decimal value. -/
def parseDigits (tok : List Char) : Nat := tok.foldl (fun n c => 10 * n + (c.toNat - 48)) 0

/-- What a reader that cannot unread loses: the look-ahead rune a scan stopped on. -/
def giveBack (canUnread : Bool) (rest : List Char) : List Char :=
  if canUnread then rest else rest.drop 1

/-- `var i int; fmt.Fscanf(r, "%d", &i)`: the value left in `i` and the reader
after the call.  The scan skips spaces (a newline is an error), accepts one
sign, then the longest run of decimal digits; the token ends at the first other
rune, which stays unread.  `i` keeps its zero value on any scan error: end of
input, newline, no digit, value out of the `int` range.  (The width limit of
`2^30` runes per call of the library is not modelled.) -/
def fscanfD (r : Reader) : Int × Reader :=
  match skipSpace r.runes with
  | (false, rest) => (0, { r with runes := rest })
  | (true, []) => (0, { r with runes := [] })
  | (true, c :: rest) =>
    let neg := c = '-'
    let body := if c = '+' ∨ c = '-' then rest else c :: rest
    let tok := body.takeWhile isNumberRune
    let left := body.dropWhile isNumberRune
    let after : Reader := { r with runes := giveBack r.canUnread left }
    let i : Int := if neg then -(parseDigits tok : Int) else (parseDigits tok : Int)
    if tok = [] then (0, after)
    else if minInt ≤ i ∧ i ≤ maxInt then (i, after)
    else (0, after)

/-- `var i int; fmt.Fscanf(r, "%c", &i)`: the code point of the next rune, or 0
at the end of the input. -/
def fscanfC (r : Reader) : Int × Reader :=
  match r.runes with
  | [] => (0, r)
  | c :: rest => ((c.toNat : Int), { r with runes := rest })

/-- The `InputN` case of `step` up to the push: read from `v.Stdin`. -/
def readN : Exec Int := fun v => (.ok (fscanfD v.Stdin).1, { v with Stdin := (fscanfD v.Stdin).2 })

/-- The `InputC` case of `step` up to the push: read from `v.Stdin`. -/
def readC : Exec Int := fun v => (.ok (fscanfC v.Stdin).1, { v with Stdin := (fscanfC v.Stdin).2 })

/-! ## `step` and `Run` -/

/-- The body of the type switch of `step`: true when the case returns before
the final `v.PC += 1` (the `JumpNZ` case). -/
def dispatch : Instruction → Exec Bool
  | .Nop => pure false
  | .Push value => do push value; pure false
  | .Pop => do let _ ← pop; pure false
  | .Dup => do dup; pure false
  | .Swap => do swap; pure false
  | .Rotate => do rotate; pure false
  | .Plus => do plus; pure false
  | .Minus => do minus; pure false
  | .Mul => do mul; pure false
  | .Div => do div; pure false
  | .Mod => do mod; pure false
  | .Label _ => pure false
  | .JumpNZ value => do jumpnz value; pure true
  | .OutputN => do let top ← pop; write (fmtD top); pure false
  | .OutputC => do let top ← pop; write (String.singleton (fmtC top)); pure false
  | .InputN => do let i ← readN; push i; pure false
  | .InputC => do let i ← readC; push i; pure false
  | .Other _ => vmPanic "unknown instruction"

/-- How a call of `step` ends: it returns `nil` or the recovered `VMError`, or
a run-time panic that is not a `VMError` (the index `v.Inst[v.PC]` out of
range) is raised again by the deferred function. -/
inductive StepEnd where
  | returned (err : Option VMError)
  | panicked
  deriving DecidableEq, Repr

/-- The index expression `v.Inst[v.PC]`: nothing when it is out of range. -/
def VM.fetch (v : VM) : Option Instruction :=
  if v.PC < 0 then none else v.Inst[v.PC.toNat]?

/-- Method `step`. -/
def VM.step (v : VM) : StepEnd × VM :=
  match v.fetch with
  | none => (.panicked, v)
  | some inst =>
    match dispatch inst v with
    | (.error e, v1) => (.returned (some e), v1)
    | (.ok true, v1) => (.returned none, v1)
    | (.ok false, v1) => (.returned none, { v1 with PC := v1.PC + 1 })

/-- How a call of `Run` ends: it returns the exit code and the error, or the
panic of `step` goes through it. -/
inductive RunEnd where
  | returned (code : Int) (err : Option VMError)
  | panicked
  deriving DecidableEq, Repr

/-- Method `Run`, with a bound on the number of loop iterations: `none` when
the loop is still running after `fuel` steps. -/
def VM.Run : Nat → VM → Option (RunEnd × VM)
  | fuel, v =>
    if (v.Inst.length : Int) > v.PC then
      match fuel with
      | 0 => none
      | n + 1 =>
        match v.step with
        | (.panicked, v1) => some (.panicked, v1)
        | (.returned (some e), v1) => some (.returned 1 (some e), v1)
        | (.returned none, v1) => VM.Run n v1
    else some (.returned 0 none, v)

/-- The text `%v` writes for a `[]int`. -/
def fmtStack (s : List Int) : String := "[" ++ " ".intercalate (s.map fmtD) ++ "]"

/-- The line `RunWithDebug` writes to `os.Stderr` after a step. -/
def debugLine (v : VM) : String :=
  "[Debug] Stack=" ++ fmtStack v.Stack ++ " PC=" ++ fmtD v.PC ++ "\n"

/-- Method `RunWithDebug`, with the same bound; `stderr` is the text written
to `os.Stderr` so far. -/
def VM.RunWithDebug : Nat → VM → String → Option (RunEnd × VM × String)
  | fuel, v, stderr =>
    if (v.Inst.length : Int) > v.PC then
      match fuel with
      | 0 => none
      | n + 1 =>
        match v.step with
        | (.panicked, v1) => some (.panicked, v1, stderr)
        | (.returned (some e), v1) => some (.returned 1 (some e), v1, stderr)
        | (.returned none, v1) => VM.RunWithDebug n v1 (stderr ++ debugLine v1)
    else some (.returned 0 none, v, stderr)

/-! ## The parser

The counters `spaces`, `p.Line` and `len(list)` are bounded by the length of
the source, far below `maxInt`, so their increments are written without
`wrapInt`. -/

/-- Struct `Parser`. -/
structure Parser where
  Src : List Char
  Line : Int
  Error : List String
  deriving DecidableEq, Repr

/-- `NewParser`. -/
def NewParser (src : List Char) : Parser := { Src := src, Line := 0, Error := [] }

/-- Method `AddError`: appends `"line %d - %s"`. -/
def Parser.AddError (p : Parser) (m : String) : Parser :=
  { p with Error := p.Error ++ ["line " ++ toString p.Line ++ " - " ++ m] }

/-- `getInstForStack`. -/
def getInstForStack (spaces : Int) : Instruction :=
  if spaces = 0 then .Nop
  else if spaces = 1 then .Dup
  else if spaces = 2 then .Swap
  else if spaces = 3 then .Rotate
  else if spaces = 4 then .Pop
  else .Push (spaces - 5)

/-- `getInstForCalc`; Go's `%` is `Int.tmod`, and no case is taken (the result
stays nil) only for a negative count. -/
def getInstForCalc (spaces : Int) : Instruction :=
  if Int.tmod spaces 5 = 0 then .Plus
  else if Int.tmod spaces 5 = 1 then .Minus
  else if Int.tmod spaces 5 = 2 then .Mul
  else if Int.tmod spaces 5 = 3 then .Div
  else if Int.tmod spaces 5 = 4 then .Mod
  else nilInst

/-- `getInstForOutput`. -/
def getInstForOutput (spaces : Int) : Instruction :=
  if Int.tmod spaces 2 = 0 then .OutputN
  else if Int.tmod spaces 2 = 1 then .OutputC
  else nilInst

/-- `getInstForInput`. -/
def getInstForInput (spaces : Int) : Instruction :=
  if Int.tmod spaces 2 = 0 then .InputN
  else if Int.tmod spaces 2 = 1 then .InputC
  else nilInst

/-- The backtick, the rune that declares a label. -/
def backtick : Char := Char.ofNat 96

/-- The apostrophe, the rune of the conditional jump. -/
def apostrophe : Char := Char.ofNat 39

/-- The newline rune. -/
def newline : Char := Char.ofNat 10

/-- The variables of `Parse` while it walks the source: the receiver and the
locals `list`, `label` and `spaces`. -/
structure ParseVars where
  p : Parser
  list : List Instruction
  label : List (Int × Int)
  spaces : Int
  deriving DecidableEq, Repr

/-- One iteration of the `for _, c := range p.Src` loop of `Parse`. -/
def parseRune (st : ParseVars) (c : Char) : ParseVars :=
  if c = ' ' then
    { st with spaces := st.spaces + 1 }
  else if c = '+' then
    if st.spaces = 0 then
      { st with p := st.p.AddError "zero space on '+'", spaces := 0 }
    else
      { st with list := st.list ++ [getInstForStack st.spaces], spaces := 0 }
  else if c = '*' then
    { st with list := st.list ++ [getInstForCalc st.spaces], spaces := 0 }
  else if c = '.' then
    { st with list := st.list ++ [getInstForOutput st.spaces], spaces := 0 }
  else if c = ',' then
    { st with list := st.list ++ [getInstForInput st.spaces], spaces := 0 }
  else if c = backtick then
    match st.label.lookup st.spaces with
    | some _ => { st with p := st.p.AddError "duplicated label", spaces := 0 }
    | none =>
      { st with
        label := (st.spaces, (st.list.length : Int)) :: st.label
        list := st.list ++ [Instruction.Label st.spaces]
        spaces := 0 }
  else if c = apostrophe then
    { st with list := st.list ++ [Instruction.JumpNZ st.spaces], spaces := 0 }
  else if c = newline then
    { st with p := { st.p with Line := st.p.Line + 1 } }
  else
    st

/-- The loop of `Parse` over a stretch of the source. -/
def parseLoop (st : ParseVars) (src : List Char) : ParseVars := src.foldl parseRune st

/-- The variables of `Parse` when the loop starts. -/
def parseStart (p : Parser) : ParseVars := { p := p, list := [], label := [], spaces := 0 }

/-- Method `Parse`: the two results, and the receiver as the call leaves it. -/
def Parser.Parse (p : Parser) : List Instruction × List (Int × Int) × Parser :=
  let st := parseLoop (parseStart p) p.Src
  (st.list, st.label, st.p)

/-! ## Predicates used by the proofs -/

/-- The number of `v.pop()` calls on the path of an instruction through `step`. -/
def popCount : Instruction → Nat
  | .Pop | .Dup | .OutputN | .OutputC | .JumpNZ _ => 1
  | .Swap | .Plus | .Minus | .Mul | .Div | .Mod => 2
  | .Rotate => 3
  | _ => 0

/-- An operation that never touches the program, the label table or the
program counter. -/
def Frame {α : Type} (m : Exec α) : Prop :=
  ∀ v, (m v).2.Inst = v.Inst ∧ (m v).2.Label = v.Label ∧ (m v).2.PC = v.PC

/-- An operation whose result, when it has one, is `false`. -/
def NoEarlyReturn (m : Exec Bool) : Prop := ∀ v v1 b, m v = (.ok b, v1) → b = false

/-- The label table and the instruction list of the parse loop agree. -/
structure LabelsAgree (st : ParseVars) : Prop where
  entry : ∀ id idx, st.label.lookup id = some idx →
    0 ≤ idx ∧ idx < (st.list.length : Int) ∧ st.list[idx.toNat]? = some (.Label id)
  inst : ∀ (i : Nat) id, st.list[i]? = some (.Label id) → st.label.lookup id = some (i : Int)
  keys : (st.label.map Prod.fst).Nodup

/-- The machine `NewVM inst label` once a run has brought it to the given stack
and program counter, with nothing read and nothing written. -/
def vmAt (stack : List Int) (pc : Int) (inst : List Instruction) (label : List (Int × Int)) : VM :=
  { Stack := stack, PC := pc, Inst := inst, Label := label,
    Stdin := { runes := [], canUnread := false }, Stdout := "" }

/-! ## Definitions for the parser and run claims -/

/-- Two states of the parse loop that agree on the locals `list`, `label` and
`spaces` (they may differ in the receiver: line counter and errors). -/
def SameVars (a b : ParseVars) : Prop :=
  a.list = b.list ∧ a.label = b.label ∧ a.spaces = b.spaces

/-- The runes `Parse` has a case for, the newline apart: space, `+`, `*`, `.`,
`,`, backtick and apostrophe. -/
def isMarker (c : Char) : Bool :=
  c == ' ' || c == '+' || c == '*' || c == '.' || c == ',' || c == backtick || c == apostrophe

/-- The runes after which the spec restarts the run-length count of spaces:
`+`, `*`, `.`, `,`, backtick and apostrophe. -/
def resetsCounter (c : Char) : Bool :=
  c == '+' || c == '*' || c == '.' || c == ',' || c == backtick || c == apostrophe

/-- The space count in front of position `i`, read off the text alone: the
number of spaces among the runes before `i` that follow the last resetting
rune (newlines and other runes in between do not interrupt the run). -/
def spaceCountAt (src : List Char) (i : Nat) : Nat :=
  (((src.take i).reverse.takeWhile fun c => !resetsCounter c).count ' ')

/-- Whether the space count in front of position `i` is already a registered
label id, read off the text alone: some earlier position holds a backtick with
the same space count in front of it. -/
def registeredBefore (src : List Char) (i : Nat) : Bool :=
  (List.range i).any fun j => src[j]? == some backtick && spaceCountAt src j == spaceCountAt src i

/-- The error entry the spec asks for at position `i` of a source, from the
text alone: one entry when rune `i` is a `+` preceded by zero spaces, one when
it is a backtick whose space count is already a registered label id, each
`"line L - <message>"` with `L` the number of newlines before position `i`;
nothing otherwise. -/
def specErrorAt (src : List Char) (i : Nat) : List String :=
  match src[i]? with
  | none => []
  | some c =>
    if c = '+' ∧ spaceCountAt src i = 0 then
      ["line " ++ toString ((src.take i).count newline) ++ " - zero space on '+'"]
    else if c = backtick ∧ registeredBefore src i = true then
      ["line " ++ toString ((src.take i).count newline) ++ " - duplicated label"]
    else []

/-- The entries the spec asks for at the positions below `n`, in source order. -/
def specErrorsBelow (src : List Char) : Nat → List String
  | 0 => []
  | n + 1 => specErrorsBelow src n ++ specErrorAt src n

/-- The error list the spec asks for: the entries of every position of the
source, in source order. -/
def specErrors (src : List Char) : List String := specErrorsBelow src src.length

/-- The number of loop iterations of `Parse` over `src`, started in `st`, that
meet a backtick with the space counter at `k`: the markers of label id `k`. -/
def labelMarkers (k : Int) : ParseVars → List Char → Nat
  | _, [] => 0
  | st, c :: cs =>
    (if c = backtick ∧ st.spaces = k then 1 else 0) + labelMarkers k (parseRune st c) cs

/-- The number of those iterations that take the `p.AddError("duplicated label")`
branch: the duplicated-label errors of label id `k`. -/
def dupLabelErrors (k : Int) : ParseVars → List Char → Nat
  | _, [] => 0
  | st, c :: cs =>
    (if c = backtick ∧ st.spaces = k ∧ (st.label.lookup k).isSome then 1 else 0) +
      dupLabelErrors k (parseRune st c) cs

/-- An operation whose "insufficient stack size" panic leaves the stack empty. -/
def UnderflowEmpties {α : Type} (m : Exec α) : Prop :=
  ∀ v e v1, m v = (.error e, v1) → e.m = "insufficient stack size" → v1.Stack = []

/-- The machine after `k` iterations of the loop of `Run`; nothing when the loop
ends (by its condition, a fault or a panic) before that. -/
def loopState : Nat → VM → Option VM
  | 0, v => some v
  | k + 1, v =>
    if (v.Inst.length : Int) > v.PC then
      match v.step with
      | (.returned none, v1) => loopState k v1
      | _ => none
    else none

/-- A machine that runs a parsed program: its label table points at `Label`
instructions of its program and its program counter is within `0..len`. -/
structure WellFormed (v : VM) : Prop where
  entry : ∀ id idx, v.Label.lookup id = some idx →
    0 ≤ idx ∧ idx < (v.Inst.length : Int) ∧ v.Inst[idx.toNat]? = some (.Label id)
  pc : 0 ≤ v.PC ∧ v.PC ≤ (v.Inst.length : Int)

/-- The countdown program of `TestJumpOp`, for a start value `n`. -/
def countdown (n : Int) : List Instruction :=
  [.Push n, .Label 9, .Push 46, .OutputC, .Push 1, .Minus, .Dup, .JumpNZ 9, .Push 33, .OutputC]

/-- The text of `n` dots. -/
def dots (n : Nat) : String := String.mk (List.replicate n '.')

/-- The source text of `TestHelloWorld`. -/
def helloWorldSrc : String :=
  "\n" ++
    "            +               +  *       +    \n" ++
    " * + .        +              +  *       +   \n" ++
    "  *     * + .            +     * + . + .    \n" ++
    "    +     * + .              +            + \n" ++
    " *         +     * * + .                 + *\n" ++
    " + .              + +  *           +     *  \n" ++
    "   * + .             + * + .        +     * \n" ++
    "+ .           + * + .             + * + .   \n" ++
    "           +            +  *         +     *\n" ++
    " * + .\n"

/-- The machine with another reader behind `v.Stdin`. -/
def withStdin (r : Reader) (v : VM) : VM := { v with Stdin := r }

/-- An operation that neither reads nor replaces `v.Stdin`. -/
def IgnoresStdin {α : Type} (m : Exec α) : Prop :=
  ∀ v r, m (withStdin r v) = ((m v).1, withStdin r (m v).2)

/-! ## Evaluation lemmas for machine operations -/

theorem exec_bind_run {α β : Type} (m : Exec α) (f : α → Exec β) (v : VM) :
    (m >>= f) v = match m v with
      | (.ok a, v1) => f a v1
      | (.error e, v1) => (.error e, v1) := rfl

theorem exec_pure_run {α : Type} (a : α) (v : VM) :
    (pure a : Exec α) v = (.ok a, v) := rfl

theorem pop_top (v : VM) (s : List Int) (x : Int) (h : v.Stack = s ++ [x]) :
    pop v = (.ok x, { v with Stack := s }) := by
  simp [pop, h]

theorem pop_empty (v : VM) (h : v.Stack = []) :
    pop v = (.error { m := "insufficient stack size", p := v.PC }, v) := by
  simp [pop, h]

theorem fetch_lt (v : VM) (inst : Instruction) (h : v.fetch = some inst) :
    0 ≤ v.PC ∧ v.PC < (v.Inst.length : Int) := by
  unfold VM.fetch at h
  split at h
  · exact absurd h (by simp)
  · rename_i hpc
    have hlt : v.PC.toNat < v.Inst.length := by
      rcases Nat.lt_or_ge v.PC.toNat v.Inst.length with h1 | h1
      · exact h1
      · rw [List.getElem?_eq_none h1] at h
        exact absurd h (by simp)
    omega

/-! ## Arithmetic of machine integers -/

theorem two_pow_64 : (2 : Int) ^ 64 = 18446744073709551616 := by norm_num

theorem wrapInt_modEq (a : Int) : wrapInt a ≡ a [ZMOD 2 ^ 64] := by
  rw [two_pow_64]
  unfold wrapInt
  have h : (a + 9223372036854775808) % 18446744073709551616 ≡ a + 9223372036854775808
      [ZMOD 18446744073709551616] := Int.mod_modEq _ _
  have h2 := h.sub_right 9223372036854775808
  simpa using h2

theorem wrapInt_isInt (a : Int) : IsInt (wrapInt a) := by
  unfold wrapInt IsInt minInt maxInt
  constructor <;> omega

theorem wrapInt_of_isInt (a : Int) (h : IsInt a) : wrapInt a = a := by
  unfold IsInt minInt maxInt at h
  unfold wrapInt
  omega

theorem wrapInt_congr {a b : Int} (h : a ≡ b [ZMOD 2 ^ 64]) : wrapInt a = wrapInt b := by
  rw [two_pow_64] at h
  unfold wrapInt
  have h2 : (a + 9223372036854775808) % 18446744073709551616 =
      (b + 9223372036854775808) % 18446744073709551616 := h.add_right _
  rw [h2]

theorem natAbs_tmod (a b : Int) : (Int.tmod a b).natAbs = a.natAbs % b.natAbs := by
  cases a <;> cases b <;> simp [Int.tmod, Int.natAbs_neg] <;> rfl

theorem tmod_nonpos (a b : Int) (h : a ≤ 0) : Int.tmod a b ≤ 0 := by
  have h1 := Int.tmod_nonneg (a := -a) b (by omega)
  have h2 : Int.tmod (-a) b = -(Int.tmod a b) := by
    rw [Int.tmod_def, Int.tmod_def]
    have : (-a).tdiv b = -(a.tdiv b) := Int.neg_tdiv _ _
    rw [this]; ring
  omega

theorem abs_tmod_lt (a b : Int) (hb : b ≠ 0) : |Int.tmod a b| < |b| := by
  rw [Int.abs_eq_natAbs, Int.abs_eq_natAbs, natAbs_tmod]
  have : 0 < b.natAbs := Int.natAbs_pos.mpr hb
  exact_mod_cast Nat.mod_lt _ this

theorem abs_tmod_le (a b : Int) : |Int.tmod a b| ≤ |a| := by
  rw [Int.abs_eq_natAbs, Int.abs_eq_natAbs, natAbs_tmod]
  exact_mod_cast Nat.mod_le _ _

theorem tmod_sign (a b : Int) : Int.tmod a b = 0 ∨ Int.sign (Int.tmod a b) = Int.sign a := by
  rcases lt_trichotomy (Int.tmod a b) 0 with h | h | h
  · right
    have ha : a < 0 := by
      by_contra hc
      have := Int.tmod_nonneg b (not_lt.mp hc)
      omega
    rw [Int.sign_eq_neg_one_of_neg h, Int.sign_eq_neg_one_of_neg ha]
  · exact Or.inl h
  · right
    have ha : 0 < a := by
      by_contra hc
      have := tmod_nonpos a b (not_lt.mp hc)
      omega
    rw [Int.sign_eq_one_of_pos h, Int.sign_eq_one_of_pos ha]

theorem isInt_tmod (a b : Int) (ha : IsInt a) : IsInt (Int.tmod a b) := by
  have h := abs_tmod_le a b
  unfold IsInt minInt maxInt at *
  rcases abs_le.mp (le_trans h (le_refl _)) with ⟨h1, h2⟩
  rcases le_or_lt 0 a with h0 | h0
  · rw [abs_of_nonneg h0] at h1 h2; omega
  · rw [abs_of_neg h0] at h1 h2
    have := tmod_nonpos a b (le_of_lt h0)
    omega

theorem isInt_tdiv (a b : Int) (ha : IsInt a) (hne : ¬ (a = minInt ∧ b = -1)) :
    IsInt (Int.tdiv a b) := by
  unfold IsInt minInt maxInt at *
  have hle : (Int.tdiv a b).natAbs ≤ a.natAbs := by
    rw [Int.natAbs_tdiv]; exact Nat.div_le_self _ _
  have h3 : 2 ≤ b.natAbs → (Int.tdiv a b).natAbs ≤ a.natAbs / 2 := by
    intro h2
    rw [Int.natAbs_tdiv]; exact Nat.div_le_div_left h2 (by norm_num)
  by_cases hb1 : b = 1
  · subst hb1; simp; omega
  by_cases hb0 : b = 0
  · subst hb0; simp
  by_cases hbm : b = -1
  · subst hbm
    simp at hne ⊢
    omega
  · have h4 := h3 (by omega)
    omega

/-! ## What a step leaves alone -/

theorem frame_bind {α β : Type} {m : Exec α} {f : α → Exec β}
    (hm : Frame m) (hf : ∀ a, Frame (f a)) : Frame (m >>= f) := by
  intro v
  rw [exec_bind_run]
  have h := hm v
  rcases hmv : m v with ⟨r, v1⟩
  rw [hmv] at h
  cases r with
  | error e => exact h
  | ok a =>
    have h2 := hf a v1
    simp only at h ⊢
    exact ⟨h2.1.trans h.1, h2.2.1.trans h.2.1, h2.2.2.trans h.2.2⟩

theorem frame_pure {α : Type} (a : α) : Frame (pure a : Exec α) := fun _ => ⟨rfl, rfl, rfl⟩

theorem frame_pop : Frame pop := by
  intro v
  unfold Starry.pop
  split <;> exact ⟨rfl, rfl, rfl⟩

theorem frame_push (x : Int) : Frame (push x) := fun _ => ⟨rfl, rfl, rfl⟩

theorem frame_write (s : String) : Frame (write s) := fun _ => ⟨rfl, rfl, rfl⟩

theorem frame_readN : Frame readN := fun _ => ⟨rfl, rfl, rfl⟩

theorem frame_readC : Frame readC := fun _ => ⟨rfl, rfl, rfl⟩

theorem frame_vmPanic {α : Type} (s : String) : Frame (vmPanic s : Exec α) :=
  fun _ => ⟨rfl, rfl, rfl⟩

theorem frame_dup : Frame dup :=
  frame_bind frame_pop fun _ => frame_bind (frame_push _) fun _ => frame_push _

theorem frame_swap : Frame swap :=
  frame_bind frame_pop fun _ => frame_bind frame_pop fun _ =>
    frame_bind (frame_push _) fun _ => frame_push _

theorem frame_rotate : Frame rotate :=
  frame_bind frame_pop fun _ => frame_bind frame_pop fun _ => frame_bind frame_pop fun _ =>
    frame_bind (frame_push _) fun _ => frame_bind (frame_push _) fun _ => frame_push _

theorem frame_plus : Frame plus :=
  frame_bind frame_pop fun _ => frame_bind frame_pop fun _ => frame_push _

theorem frame_minus : Frame minus :=
  frame_bind frame_pop fun _ => frame_bind frame_pop fun _ => frame_push _

theorem frame_mul : Frame mul :=
  frame_bind frame_pop fun _ => frame_bind frame_pop fun _ => frame_push _

theorem frame_div : Frame div :=
  frame_bind frame_pop fun x => frame_bind frame_pop fun _ => by
    by_cases hx : x = 0
    · simp only [hx, if_true]; exact frame_vmPanic _
    · simp only [hx, if_false]; exact frame_push _

theorem frame_mod : Frame mod :=
  frame_bind frame_pop fun x => frame_bind frame_pop fun _ => by
    by_cases hx : x = 0
    · simp only [hx, if_true]; exact frame_vmPanic _
    · simp only [hx, if_false]; exact frame_push _

theorem frame_dispatch (inst : Instruction) (h : ∀ t, inst ≠ .JumpNZ t) :
    Frame (dispatch inst) := by
  cases inst with
  | JumpNZ t => exact absurd rfl (h t)
  | Nop => exact frame_pure _
  | Label _ => exact frame_pure _
  | Other _ => exact frame_vmPanic _
  | Push x => exact frame_bind (frame_push x) fun _ => frame_pure _
  | Pop => exact frame_bind frame_pop fun _ => frame_pure _
  | Dup => exact frame_bind frame_dup fun _ => frame_pure _
  | Swap => exact frame_bind frame_swap fun _ => frame_pure _
  | Rotate => exact frame_bind frame_rotate fun _ => frame_pure _
  | Plus => exact frame_bind frame_plus fun _ => frame_pure _
  | Minus => exact frame_bind frame_minus fun _ => frame_pure _
  | Mul => exact frame_bind frame_mul fun _ => frame_pure _
  | Div => exact frame_bind frame_div fun _ => frame_pure _
  | Mod => exact frame_bind frame_mod fun _ => frame_pure _
  | OutputN => exact frame_bind frame_pop fun _ => frame_bind (frame_write _) fun _ => frame_pure _
  | OutputC => exact frame_bind frame_pop fun _ => frame_bind (frame_write _) fun _ => frame_pure _
  | InputN => exact frame_bind frame_readN fun _ => frame_bind (frame_push _) fun _ => frame_pure _
  | InputC => exact frame_bind frame_readC fun _ => frame_bind (frame_push _) fun _ => frame_pure _

theorem noEarly_bind {α : Type} (m : Exec α) {f : α → Exec Bool}
    (hf : ∀ a, NoEarlyReturn (f a)) : NoEarlyReturn (m >>= f) := by
  intro v v1 b h
  rw [exec_bind_run] at h
  rcases hmv : m v with ⟨r, v2⟩
  rw [hmv] at h
  cases r with
  | error e => simp at h
  | ok a => exact hf a v2 v1 b h

theorem noEarly_pure_false : NoEarlyReturn (pure false) := by
  intro v v1 b h
  rw [exec_pure_run] at h
  simp at h
  exact h.1

theorem noEarly_vmPanic (s : String) : NoEarlyReturn (vmPanic s) := by
  intro v v1 b h
  simp [Starry.vmPanic] at h

/-- A case of the switch other than `JumpNZ` never asks for the early return. -/
theorem dispatch_flag (inst : Instruction) (h : ∀ t, inst ≠ .JumpNZ t) :
    NoEarlyReturn (dispatch inst) := by
  cases inst with
  | JumpNZ t => exact absurd rfl (h t)
  | Nop => exact noEarly_pure_false
  | Label _ => exact noEarly_pure_false
  | Other _ => exact noEarly_vmPanic _
  | OutputN =>
    exact noEarly_bind _ fun _ => noEarly_bind _ fun _ => noEarly_pure_false
  | OutputC =>
    exact noEarly_bind _ fun _ => noEarly_bind _ fun _ => noEarly_pure_false
  | InputN =>
    exact noEarly_bind _ fun _ => noEarly_bind _ fun _ => noEarly_pure_false
  | InputC =>
    exact noEarly_bind _ fun _ => noEarly_bind _ fun _ => noEarly_pure_false
  | _ => exact noEarly_bind _ fun _ => noEarly_pure_false

/-- The `JumpNZ` case: the tables stay, and the program counter becomes the
registered index or moves on by one. -/
theorem dispatch_jumpnz (t : Int) (v v1 : VM) (b : Bool)
    (hd : dispatch (.JumpNZ t) v = (.ok b, v1)) :
    b = true ∧ v1.Inst = v.Inst ∧ v1.Label = v.Label ∧
      (v1.PC = v.PC + 1 ∨ v.Label.lookup t = some v1.PC) := by
  have hd2 : (jumpnz t >>= fun _ => (pure true : Exec Bool)) v = (.ok b, v1) := hd
  rw [exec_bind_run] at hd2
  unfold jumpnz at hd2
  rcases hl : v.Label.lookup t with _ | idx
  · simp [hl] at hd2
  · have hp := frame_pop v
    rcases hpop : pop v with ⟨r, v2⟩
    rw [hpop] at hp
    cases r with
    | error e => simp [hl, hpop] at hd2
    | ok top =>
      by_cases htop : top = 0
      · simp [hl, hpop, htop, exec_pure_run] at hd2
        obtain ⟨hb, hv⟩ := hd2
        subst hv
        exact ⟨hb, hp.1, hp.2.1, Or.inl (by simpa using hp.2.2)⟩
      · simp [hl, hpop, htop, exec_pure_run] at hd2
        obtain ⟨hb, hv⟩ := hd2
        subst hv
        exact ⟨hb, hp.1, hp.2.1, Or.inr rfl⟩

/-- A step that returns `nil` keeps the program and the label table and sets
the program counter to the next index or to a registered label index. -/
theorem step_ok (v v1 : VM) (h : v.step = (.returned none, v1)) :
    v1.Inst = v.Inst ∧ v1.Label = v.Label ∧ v.PC < v.Inst.length ∧
      (v1.PC = v.PC + 1 ∨ ∃ t, v.Label.lookup t = some v1.PC) := by
  unfold VM.step at h
  rcases hf : v.fetch with _ | inst
  · simp [hf] at h
  · have hlt := (fetch_lt v inst hf).2
    rw [hf] at h
    simp only at h
    rcases hd : dispatch inst v with ⟨r, v2⟩
    rw [hd] at h
    cases r with
    | error e => simp at h
    | ok b =>
      by_cases hj : ∃ t, inst = .JumpNZ t
      · obtain ⟨t, rfl⟩ := hj
        obtain ⟨hb, h1, h2, h3⟩ := dispatch_jumpnz t v v2 b hd
        subst hb
        simp at h
        subst h
        exact ⟨h1, h2, hlt, h3.imp id fun h => ⟨t, h⟩⟩
      · have hj2 : ∀ t, inst ≠ .JumpNZ t := fun t ht => hj ⟨t, ht⟩
        have hb := dispatch_flag inst hj2 v v2 b hd
        have hfr := frame_dispatch inst hj2 v
        rw [hd] at hfr
        subst hb
        simp at h
        subst h
        exact ⟨hfr.1, hfr.2.1, hlt, Or.inl (by simpa using hfr.2.2)⟩

/-! ## The parser's label table -/

theorem lookup_none_not_mem (l : List (Int × Int)) (k : Int) (h : l.lookup k = none) :
    k ∉ l.map Prod.fst := by
  induction l with
  | nil => simp
  | cons a l ih =>
    obtain ⟨k1, v1⟩ := a
    rw [List.lookup_cons] at h
    by_cases hk : k = k1
    · subst hk; simp at h
    · have : (k == k1) = false := by simpa using hk
      rw [this] at h
      simp only [List.map_cons, List.mem_cons, not_or]
      exact ⟨hk, ih h⟩

theorem labelsAgree_append (st : ParseVars) (h : LabelsAgree st) (x : Instruction)
    (hx : ∀ id, x ≠ .Label id) (p : Parser) (n : Int) :
    LabelsAgree { st with p := p, list := st.list ++ [x], spaces := n } := by
  constructor
  · intro id idx hl
    obtain ⟨h0, h1, h2⟩ := h.entry id idx hl
    have hlt : idx.toNat < st.list.length := by omega
    refine ⟨h0, ?_, ?_⟩
    · simp; omega
    · simp only
      rw [List.getElem?_append_left hlt]; exact h2
  · intro i id hi
    simp only at hi
    rcases Nat.lt_or_ge i st.list.length with hlt | hge
    · rw [List.getElem?_append_left hlt] at hi
      exact h.inst i id hi
    · rw [List.getElem?_append_right hge] at hi
      rcases hsub : i - st.list.length with _ | k
      · rw [hsub] at hi; simp at hi; exact absurd hi (hx id)
      · rw [hsub] at hi; simp at hi
  · exact h.keys

theorem labelsAgree_declare (st : ParseVars) (h : LabelsAgree st)
    (hnone : st.label.lookup st.spaces = none) (n : Int) :
    LabelsAgree { st with
      label := (st.spaces, (st.list.length : Int)) :: st.label
      list := st.list ++ [Instruction.Label st.spaces]
      spaces := n } := by
  constructor
  · intro id idx hl
    simp only at hl ⊢
    rw [List.lookup_cons] at hl
    by_cases hk : id = st.spaces
    · subst hk
      simp at hl
      subst hl
      refine ⟨by omega, by simp, ?_⟩
      simp
    · have hk2 : (id == st.spaces) = false := by simpa using hk
      rw [hk2] at hl
      obtain ⟨h0, h1, h2⟩ := h.entry id idx hl
      have hlt : idx.toNat < st.list.length := by omega
      refine ⟨h0, by simp; omega, ?_⟩
      rw [List.getElem?_append_left hlt]; exact h2
  · intro i id hi
    simp only at hi ⊢
    rw [List.lookup_cons]
    rcases Nat.lt_or_ge i st.list.length with hlt | hge
    · rw [List.getElem?_append_left hlt] at hi
      have hold := h.inst i id hi
      have hk : id ≠ st.spaces := by
        rintro rfl
        rw [hnone] at hold
        simp at hold
      have hk2 : (id == st.spaces) = false := by simpa using hk
      rw [hk2]; exact hold
    · rw [List.getElem?_append_right hge] at hi
      rcases hsub : i - st.list.length with _ | k
      · rw [hsub] at hi
        simp at hi
        subst hi
        have : i = st.list.length := by omega
        simp [this]
      · rw [hsub] at hi; simp at hi
  · simp only [List.map_cons, List.nodup_cons]
    exact ⟨lookup_none_not_mem _ _ hnone, h.keys⟩

theorem getInstForStack_ne_label (n id : Int) : getInstForStack n ≠ .Label id := by
  unfold getInstForStack
  repeat' split
  all_goals simp

theorem getInstForCalc_ne_label (n id : Int) : getInstForCalc n ≠ .Label id := by
  unfold getInstForCalc nilInst
  repeat' split
  all_goals simp

theorem getInstForOutput_ne_label (n id : Int) : getInstForOutput n ≠ .Label id := by
  unfold getInstForOutput nilInst
  repeat' split
  all_goals simp

theorem getInstForInput_ne_label (n id : Int) : getInstForInput n ≠ .Label id := by
  unfold getInstForInput nilInst
  repeat' split
  all_goals simp

theorem labelsAgree_parseRune (st : ParseVars) (h : LabelsAgree st) (c : Char) :
    LabelsAgree (parseRune st c) := by
  have hsame : ∀ (p : Parser) (n : Int), LabelsAgree { st with p := p, spaces := n } :=
    fun p n => ⟨h.entry, h.inst, h.keys⟩
  unfold Starry.parseRune
  split
  · exact hsame _ _
  split
  · split
    · exact hsame _ _
    · exact labelsAgree_append st h _ (getInstForStack_ne_label _) _ _
  split
  · exact labelsAgree_append st h _ (getInstForCalc_ne_label _) _ _
  split
  · exact labelsAgree_append st h _ (getInstForOutput_ne_label _) _ _
  split
  · exact labelsAgree_append st h _ (getInstForInput_ne_label _) _ _
  split
  · split
    · exact hsame _ _
    · rename_i hnone
      exact labelsAgree_declare st h hnone 0
  split
  · exact labelsAgree_append st h _ (by simp) _ _
  split
  · exact hsame _ _
  · exact h

theorem labelsAgree_parseLoop (src : List Char) (st : ParseVars) (h : LabelsAgree st) :
    LabelsAgree (parseLoop st src) := by
  induction src generalizing st with
  | nil => exact h
  | cons c src ih => exact ih _ (labelsAgree_parseRune st h c)

/-! ## Runs of spaces -/

theorem parseLoop_append (st : ParseVars) (a b : List Char) :
    parseLoop st (a ++ b) = parseLoop (parseLoop st a) b := by
  simp [parseLoop, List.foldl_append]

theorem parseLoop_spaces (n : Nat) (st : ParseVars) :
    parseLoop st (List.replicate n ' ') = { st with spaces := st.spaces + n } := by
  induction n generalizing st with
  | zero => simp [parseLoop]
  | succ k ih =>
    have h : parseLoop st (List.replicate (k + 1) ' ') =
        parseLoop (parseRune st ' ') (List.replicate k ' ') := by
      simp [parseLoop, List.replicate_succ]
    rw [h, ih]
    simp [parseRune]
    omega

/-- Parsing a run of `n` spaces followed by one rune is one loop iteration on
that rune with the counter at `n`. -/
theorem parse_run_then (n : Nat) (c : Char) :
    (NewParser (List.replicate n ' ' ++ [c])).Parse =
      ((parseRune ⟨NewParser (List.replicate n ' ' ++ [c]), [], [], n⟩ c).list,
       (parseRune ⟨NewParser (List.replicate n ' ' ++ [c]), [], [], n⟩ c).label,
       (parseRune ⟨NewParser (List.replicate n ' ' ++ [c]), [], [], n⟩ c).p) := by
  have hsrc : (NewParser (List.replicate n ' ' ++ [c])).Src = List.replicate n ' ' ++ [c] := rfl
  unfold Parser.Parse
  rw [hsrc, parseLoop_append, parseLoop_spaces]
  simp [parseLoop, parseStart]

theorem toString_natCast (n : Nat) : toString (n : Int) = toString n := rfl

/-! ## The claims -/

/-- Claim C1: for every source text the label table returned by `Parse` agrees
with the instruction list it returns.  Every entry `id -> idx` of the table is
a valid index of the list and the list holds `Label id` at `idx`; every
`Label id` of the list sits at the index the table gives for `id`; so a label
id occurs at most once in the list.  The table also lists each id once. -/
theorem parse_label_table_consistent (p : Parser) :
    (∀ id idx, p.Parse.2.1.lookup id = some idx →
      0 ≤ idx ∧ idx < (p.Parse.1.length : Int) ∧ p.Parse.1[idx.toNat]? = some (.Label id)) ∧
    (∀ (i : Nat) id, p.Parse.1[i]? = some (.Label id) → p.Parse.2.1.lookup id = some (i : Int)) ∧
    (∀ (i j : Nat) id, p.Parse.1[i]? = some (.Label id) → p.Parse.1[j]? = some (.Label id) →
      i = j) ∧
    (p.Parse.2.1.map Prod.fst).Nodup := by
  have h : LabelsAgree (parseLoop (parseStart p) p.Src) :=
    labelsAgree_parseLoop _ _ ⟨by simp [parseStart], by simp [parseStart], by simp [parseStart]⟩
  refine ⟨h.entry, h.inst, ?_, h.keys⟩
  intro i j id hi hj
  have h1 := h.inst i id hi
  have h2 := h.inst j id hj
  have h3 : p.Parse.2.1 = (parseLoop (parseStart p) p.Src).label := rfl
  rw [h1] at h2
  simpa using h2

/-- A source that declares the labels 1 and 2 after a stray `+` and around a
`*`: the entry of label 2 points at index 2 of the list, where `Label 2`
stands. -/
theorem parse_label_table_consistent_witness :
    (0 : Int) ≤ 2 ∧
    (2 : Int) < ((NewParser ['+', ' ', backtick, '*', ' ', ' ', backtick]).Parse.1.length : Int) ∧
    (NewParser ['+', ' ', backtick, '*', ' ', ' ', backtick]).Parse.1[(2 : Int).toNat]? =
      some (.Label 2) :=
  (parse_label_table_consistent (NewParser ['+', ' ', backtick, '*', ' ', ' ', backtick])).1 2 2
    (by decide)

/-- Claim C2: when the current instruction is `JumpNZ t` with `t` in the label
table and the stack is `s ++ [x]`, one step returns no error, leaves the stack
`s`, and sets `PC` to the table's index for `t` when `x` is nonzero (exactly
that index, with no further advance) and to `PC + 1` when `x` is zero. -/
theorem step_jumpnz_registered (v : VM) (t idx : Int) (s : List Int) (x : Int)
    (hi : v.fetch = some (.JumpNZ t)) (hl : v.Label.lookup t = some idx)
    (hs : v.Stack = s ++ [x]) :
    v.step = (.returned none,
      { v with Stack := s, PC := if x ≠ 0 then idx else v.PC + 1 }) := by
  by_cases hx : x = 0
  · simp [VM.step, hi, dispatch, jumpnz, hl, exec_bind_run, exec_pure_run, pop_top v s x hs, hx]
  · simp [VM.step, hi, dispatch, jumpnz, hl, exec_bind_run, exec_pure_run, pop_top v s x hs, hx]

/-- A jump to label 9, registered at index 3, from `PC = 0`: taken on top 1,
not taken on top 0. -/
theorem step_jumpnz_registered_witness :
    (vmAt [5, 1] 0 [.JumpNZ 9] [(9, 3)]).step = (.returned none, vmAt [5] 3 [.JumpNZ 9] [(9, 3)]) ∧
    (vmAt [5, 0] 0 [.JumpNZ 9] [(9, 3)]).step = (.returned none, vmAt [5] 1 [.JumpNZ 9] [(9, 3)]) :=
  ⟨step_jumpnz_registered (vmAt [5, 1] 0 [.JumpNZ 9] [(9, 3)]) 9 3 [5] 1
      (by decide) (by decide) (by decide),
    step_jumpnz_registered (vmAt [5, 0] 0 [.JumpNZ 9] [(9, 3)]) 9 3 [5] 0
      (by decide) (by decide) (by decide)⟩

/-- Claim C3: when the current instruction is `JumpNZ t` with `t` absent from
the label table, whatever the stack holds, `Run` returns exit code 1 with the
fault "jump target is not found" carrying the `PC` of that jump, and the
machine is left as it was: nothing is popped and `PC` does not move. -/
theorem run_jumpnz_unregistered (fuel : Nat) (v : VM) (t : Int)
    (hi : v.fetch = some (.JumpNZ t)) (hl : v.Label.lookup t = none) :
    v.Run (fuel + 1) =
      some (.returned 1 (some { m := "jump target is not found", p := v.PC }), v) := by
  have hpc := (fetch_lt v _ hi).2
  unfold VM.Run
  simp [hpc, VM.step, hi, dispatch, jumpnz, hl, exec_bind_run]

/-- The unregistered jump at `PC = 1` on an empty stack, on top 0 and on top 7. -/
theorem run_jumpnz_unregistered_witness :
    (vmAt [] 1 [.Nop, .JumpNZ 9] [(8, 0)]).Run (0 + 1) =
      some (.returned 1 (some { m := "jump target is not found", p := 1 }),
        vmAt [] 1 [.Nop, .JumpNZ 9] [(8, 0)]) ∧
    (vmAt [0] 1 [.Nop, .JumpNZ 9] [(8, 0)]).Run (0 + 1) =
      some (.returned 1 (some { m := "jump target is not found", p := 1 }),
        vmAt [0] 1 [.Nop, .JumpNZ 9] [(8, 0)]) ∧
    (vmAt [7] 1 [.Nop, .JumpNZ 9] [(8, 0)]).Run (0 + 1) =
      some (.returned 1 (some { m := "jump target is not found", p := 1 }),
        vmAt [7] 1 [.Nop, .JumpNZ 9] [(8, 0)]) :=
  ⟨run_jumpnz_unregistered 0 (vmAt [] 1 [.Nop, .JumpNZ 9] [(8, 0)]) 9 (by decide) (by decide),
    run_jumpnz_unregistered 0 (vmAt [0] 1 [.Nop, .JumpNZ 9] [(8, 0)]) 9 (by decide) (by decide),
    run_jumpnz_unregistered 0 (vmAt [7] 1 [.Nop, .JumpNZ 9] [(8, 0)]) 9 (by decide) (by decide)⟩

/-- Claim C4: when the current instruction is `Div` or `Mod` and the stack is
`s ++ [y, 0]`, `Run` returns exit code 1 with the fault "division by zero"
carrying the `PC` of that instruction; `PC` is unchanged, nothing is pushed and
the stack is left as `s`, the two operands popped. -/
theorem run_division_by_zero (fuel : Nat) (v : VM) (inst : Instruction) (s : List Int) (y : Int)
    (hinst : inst = .Div ∨ inst = .Mod) (hi : v.fetch = some inst)
    (hs : v.Stack = s ++ [y, 0]) :
    v.Run (fuel + 1) =
      some (.returned 1 (some { m := "division by zero", p := v.PC }), { v with Stack := s }) := by
  have hpc := (fetch_lt v _ hi).2
  have h1 : v.Stack = (s ++ [y]) ++ [0] := by simp [hs]
  unfold VM.Run
  rcases hinst with h | h <;> subst h <;>
    simp [hpc, VM.step, hi, dispatch, div, mod, exec_bind_run, exec_pure_run, pop_top v _ _ h1,
      pop_top { v with Stack := s ++ [y] } s y rfl, vmPanic]

/-- Dividing 3 by 0 and taking 3 modulo 0 above the value 7, at `PC = 1`. -/
theorem run_division_by_zero_witness :
    (vmAt [7, 3, 0] 1 [.Nop, .Div, .Nop] []).Run (0 + 1) =
      some (.returned 1 (some { m := "division by zero", p := 1 }),
        vmAt [7] 1 [.Nop, .Div, .Nop] []) ∧
    (vmAt [7, 3, 0] 1 [.Nop, .Mod, .Nop] []).Run (0 + 1) =
      some (.returned 1 (some { m := "division by zero", p := 1 }),
        vmAt [7] 1 [.Nop, .Mod, .Nop] []) :=
  ⟨run_division_by_zero 0 (vmAt [7, 3, 0] 1 [.Nop, .Div, .Nop] []) .Div [7] 3
      (Or.inl rfl) (by decide) (by decide),
    run_division_by_zero 0 (vmAt [7, 3, 0] 1 [.Nop, .Mod, .Nop] []) .Mod [7] 3
      (Or.inr rfl) (by decide) (by decide)⟩

/-- Claim C5: when the current instruction pops `k` operands (`popCount`: 1 for
pop, duplicate, the two outputs and a jump, whose target must be registered; 2
for swap and the five arithmetic operations; 3 for rotate) and the stack holds
fewer than `k` values, `Run` stops at that instruction: already its first loop
iteration returns exit code 1 with the fault "insufficient stack size"
carrying the `PC` of that instruction, so no later instruction is executed;
`PC`, the output and the input are as before and the stack is empty. -/
theorem run_stack_underflow (fuel : Nat) (v : VM) (inst : Instruction)
    (hi : v.fetch = some inst) (hk : v.Stack.length < popCount inst)
    (hj : ∀ t, inst = .JumpNZ t → ∃ idx, v.Label.lookup t = some idx) :
    v.Run (fuel + 1) =
      some (.returned 1 (some { m := "insufficient stack size", p := v.PC }),
        { v with Stack := [] }) := by
  have hpc := (fetch_lt v _ hi).2
  obtain ⟨stk, pc, ins, lbl, sin, sout⟩ := v
  simp only at hk hj hpc
  unfold VM.Run
  rcases stk with _ | ⟨a, _ | ⟨b, _ | ⟨c, rest⟩⟩⟩
  · cases inst <;> simp [popCount] at hk
    case JumpNZ t =>
      obtain ⟨idx, hidx⟩ := hj t rfl
      simp [hpc, VM.step, hi, dispatch, jumpnz, hidx, exec_bind_run, pop]
    all_goals
      simp [hpc, VM.step, hi, dispatch, dup, swap, rotate, plus, minus, mul, div, mod,
          exec_bind_run, pop]
  · cases inst <;> simp [popCount] at hk
    all_goals
      simp [hpc, VM.step, hi, dispatch, dup, swap, rotate, plus, minus, mul, div, mod,
          exec_bind_run, pop]
  · cases inst <;> simp [popCount] at hk
    all_goals
      simp [hpc, VM.step, hi, dispatch, dup, swap, rotate, plus, minus, mul, div, mod,
          exec_bind_run, pop]
  · cases inst <;> simp [popCount] at hk <;> omega

/-- Rotate on two values, followed by an output that is never reached, and a
registered jump on the empty stack. -/
theorem run_stack_underflow_witness :
    (vmAt [1, 2] 0 [.Rotate, .Push 65, .OutputC] []).Run (5 + 1) =
      some (.returned 1 (some { m := "insufficient stack size", p := 0 }),
        vmAt [] 0 [.Rotate, .Push 65, .OutputC] []) ∧
    (vmAt [] 1 [.Label 9, .JumpNZ 9] [(9, 0)]).Run (5 + 1) =
      some (.returned 1 (some { m := "insufficient stack size", p := 1 }),
        vmAt [] 1 [.Label 9, .JumpNZ 9] [(9, 0)]) :=
  ⟨run_stack_underflow 5 (vmAt [1, 2] 0 [.Rotate, .Push 65, .OutputC] []) .Rotate
      (by decide) (by decide) (fun t h => by simp at h),
    run_stack_underflow 5 (vmAt [] 1 [.Label 9, .JumpNZ 9] [(9, 0)]) (.JumpNZ 9)
      (by decide) (by decide) (fun t h => ⟨0, by cases h; decide⟩)⟩

/-- Claim C6, the statement as written fails: with the label table `0 -> 5`
the two-instruction program `Push 1, JumpNZ 0` returns exit code 0 with no
error and `PC = 5`, which is not the length 2 of the program. -/
theorem run_exit_zero_pc_counterexample :
    (NewVM [.Push 1, .JumpNZ 0] [(0, 5)] []).Run 2 =
      some (.returned 0 none,
        { Stack := [], PC := 5, Inst := [.Push 1, .JumpNZ 0], Label := [(0, 5)],
          Stdin := { runes := [], canUnread := false }, Stdout := "" }) ∧
    (5 : Int) ≠ (([.Push 1, .JumpNZ 0] : List Instruction).length : Int) := by
  decide

/-- Claim C6, amended: whenever `Run` returns, it returns either exit code 0
with no error or exit code 1 with a fault; and when the run starts with `PC`
at most the length of the program (0 after `NewVM`) and every index stored in
the label table is at most that length (as in every table built by `Parse`),
a return with exit code 0 leaves `PC` equal to the length of the program. -/
theorem run_return_outcome (fuel : Nat) (v : VM) (code : Int) (err : Option VMError) (v1 : VM)
    (h : v.Run fuel = some (.returned code err, v1)) :
    ((code = 0 ∧ err = none) ∨ (code = 1 ∧ ∃ e, err = some e)) ∧
    (v.PC ≤ v.Inst.length →
      (∀ id idx, v.Label.lookup id = some idx → idx ≤ (v.Inst.length : Int)) →
      code = 0 → v1.PC = (v.Inst.length : Int)) := by
  induction fuel generalizing v with
  | zero =>
    unfold VM.Run at h
    split at h
    · simp at h
    · rename_i hlen
      simp at h
      obtain ⟨⟨hc, he⟩, hv⟩ := h
      subst hv
      exact ⟨Or.inl ⟨hc.symm, he.symm⟩, fun hpc _ _ => by omega⟩
  | succ n ih =>
    unfold VM.Run at h
    split at h
    · rcases hs : v.step with ⟨r, v2⟩
      rw [hs] at h
      cases r with
      | panicked => simp at h
      | returned e =>
        cases e with
        | some e =>
          simp at h
          obtain ⟨⟨hc, he⟩, _⟩ := h
          exact ⟨Or.inr ⟨hc.symm, e, he.symm⟩, fun _ _ h0 => by omega⟩
        | none =>
          simp only at h
          obtain ⟨h1, h2, h3, h4⟩ := step_ok v v2 hs
          have := ih v2 h
          refine ⟨this.1, fun hpc hl h0 => ?_⟩
          rw [← h1]
          apply this.2 _ _ h0
          · rw [h1]
            rcases h4 with h4 | ⟨t, h4⟩
            · omega
            · exact hl t _ h4
          · rw [h1, h2]; exact hl
    · rename_i hlen
      simp at h
      obtain ⟨⟨hc, he⟩, hv⟩ := h
      subst hv
      exact ⟨Or.inl ⟨hc.symm, he.symm⟩, fun hpc _ _ => by omega⟩

/-- The program `Push 1, JumpNZ 0, Label 0` with the table `0 -> 2` returns
exit code 0 at `PC = 3`, the length of the program. -/
theorem run_return_outcome_witness :
    (((0 : Int) = 0 ∧ (none : Option VMError) = none) ∨
      ((0 : Int) = 1 ∧ ∃ e, (none : Option VMError) = some e)) ∧
    (vmAt [] 3 [.Push 1, .JumpNZ 0, .Label 0] [(0, 2)]).PC =
      (((NewVM [.Push 1, .JumpNZ 0, .Label 0] [(0, 2)] []).Inst.length : Nat) : Int) :=
  ⟨(run_return_outcome 10 (NewVM [.Push 1, .JumpNZ 0, .Label 0] [(0, 2)] []) 0 none
      (vmAt [] 3 [.Push 1, .JumpNZ 0, .Label 0] [(0, 2)]) (by decide)).1,
    (run_return_outcome 10 (NewVM [.Push 1, .JumpNZ 0, .Label 0] [(0, 2)] []) 0 none
      (vmAt [] 3 [.Push 1, .JumpNZ 0, .Label 0] [(0, 2)]) (by decide)).2
      (by decide)
      (fun id idx hl => by
        by_cases hid : id = 0
        · subst hid
          have h2 : idx = 2 := by
            simpa [NewVM, List.lookup] using hl.symm
          subst h2
          decide
        · have hb : (id == 0) = false := by simpa using hid
          simp [NewVM, List.lookup, hb] at hl)
      rfl⟩

/-- Claim C7: on a stack `s ++ [y, x]` a step on `Plus`, `Minus` or `Mul`
returns no error, advances `PC` by one and leaves `s ++ [y + x]`,
`s ++ [y - x]` (second minus top) and `s ++ [y * x]`, the result wrapped to the
64-bit `int`: it is an `int`, it is congruent to the exact result modulo
`2^64`, and it is the exact result whenever that is an `int`.  The part `s`
below the operands and the rest of the machine are unchanged. -/
theorem step_plus_minus_mul (v : VM) (s : List Int) (x y : Int) (hs : v.Stack = s ++ [y, x]) :
    (v.fetch = some .Plus →
      v.step = (.returned none, { v with Stack := s ++ [wrapInt (y + x)], PC := v.PC + 1 })) ∧
    (v.fetch = some .Minus →
      v.step = (.returned none, { v with Stack := s ++ [wrapInt (y - x)], PC := v.PC + 1 })) ∧
    (v.fetch = some .Mul →
      v.step = (.returned none, { v with Stack := s ++ [wrapInt (y * x)], PC := v.PC + 1 })) ∧
    (IsInt (y + x) → wrapInt (y + x) = y + x) ∧
    (IsInt (y - x) → wrapInt (y - x) = y - x) ∧
    (IsInt (y * x) → wrapInt (y * x) = y * x) ∧
    IsInt (wrapInt (y + x)) ∧ IsInt (wrapInt (y - x)) ∧ IsInt (wrapInt (y * x)) ∧
    wrapInt (y + x) ≡ y + x [ZMOD 2 ^ 64] ∧ wrapInt (y - x) ≡ y - x [ZMOD 2 ^ 64] ∧
    wrapInt (y * x) ≡ y * x [ZMOD 2 ^ 64] := by
  have h1 : v.Stack = (s ++ [y]) ++ [x] := by simp [hs]
  refine ⟨?_, ?_, ?_, wrapInt_of_isInt _, wrapInt_of_isInt _, wrapInt_of_isInt _,
    wrapInt_isInt _, wrapInt_isInt _, wrapInt_isInt _, wrapInt_modEq _, wrapInt_modEq _,
    wrapInt_modEq _⟩ <;> intro hi <;>
    simp [VM.step, hi, dispatch, plus, minus, mul, exec_bind_run, exec_pure_run,
      pop_top v _ _ h1, pop_top { v with Stack := s ++ [y] } s y rfl, push]

/-- On the stack 9, 44, 33 (33 on top): the sum 77, the difference 11 and the
product 1452 above the untouched 9; and the largest `int` plus one wraps to
the smallest. -/
theorem step_plus_minus_mul_witness :
    (vmAt [9, 44, 33] 0 [.Plus] []).step = (.returned none, vmAt [9, 77] 1 [.Plus] []) ∧
    (vmAt [9, 44, 33] 0 [.Minus] []).step = (.returned none, vmAt [9, 11] 1 [.Minus] []) ∧
    (vmAt [9, 44, 33] 0 [.Mul] []).step = (.returned none, vmAt [9, 1452] 1 [.Mul] []) ∧
    (vmAt [maxInt, 1] 0 [.Plus] []).step = (.returned none, vmAt [minInt] 1 [.Plus] []) :=
  ⟨(step_plus_minus_mul (vmAt [9, 44, 33] 0 [.Plus] []) [9] 33 44 (by decide)).1 (by decide),
    (step_plus_minus_mul (vmAt [9, 44, 33] 0 [.Minus] []) [9] 33 44 (by decide)).2.1 (by decide),
    (step_plus_minus_mul (vmAt [9, 44, 33] 0 [.Mul] []) [9] 33 44 (by decide)).2.2.1 (by decide),
    (step_plus_minus_mul (vmAt [maxInt, 1] 0 [.Plus] []) [] 1 maxInt (by decide)).1 (by decide)⟩

/-- Claim C8: on a stack `s ++ [y, x]` of `int` values with `x` nonzero, `Div`
leaves `s ++ [q]` and `Mod` leaves `s ++ [r]`, where `q` is the quotient of `y`
by `x` truncated toward zero (`Int.tdiv`, as a machine integer: it is the exact
quotient except for the smallest `int` divided by -1, which wraps to the
smallest `int`) and `r` is the remainder of that division (`Int.tmod`):
`y = q * x + r` as machine integers, `|r| < |x|`, and `r` is zero or has the
sign of the dividend `y`. -/
theorem step_div_mod_truncated (v : VM) (s : List Int) (x y : Int)
    (hs : v.Stack = s ++ [y, x]) (hx : x ≠ 0) (hxr : IsInt x) (hyr : IsInt y) :
    (v.fetch = some .Div →
      v.step = (.returned none,
        { v with Stack := s ++ [wrapInt (Int.tdiv y x)], PC := v.PC + 1 })) ∧
    (v.fetch = some .Mod →
      v.step = (.returned none, { v with Stack := s ++ [Int.tmod y x], PC := v.PC + 1 })) ∧
    (¬ (y = minInt ∧ x = -1) → wrapInt (Int.tdiv y x) = Int.tdiv y x) ∧
    (y = minInt ∧ x = -1 → wrapInt (Int.tdiv y x) = minInt) ∧
    wrapInt (wrapInt (Int.tdiv y x) * x + Int.tmod y x) = y ∧
    |Int.tmod y x| < |x| ∧
    (Int.tmod y x = 0 ∨ Int.sign (Int.tmod y x) = Int.sign y) := by
  have h1 : v.Stack = (s ++ [y]) ++ [x] := by simp [hs]
  have hr : wrapInt (Int.tmod y x) = Int.tmod y x := wrapInt_of_isInt _ (isInt_tmod y x hyr)
  refine ⟨?_, ?_, ?_, ?_, ?_, abs_tmod_lt y x hx, tmod_sign y x⟩
  · intro hi
    simp [VM.step, hi, dispatch, div, exec_bind_run, exec_pure_run,
      pop_top v _ _ h1, pop_top { v with Stack := s ++ [y] } s y rfl, push, hx]
  · intro hi
    simp [VM.step, hi, dispatch, mod, exec_bind_run, exec_pure_run,
      pop_top v _ _ h1, pop_top { v with Stack := s ++ [y] } s y rfl, push, hx, hr]
  · intro hne
    exact wrapInt_of_isInt _ (isInt_tdiv y x hyr hne)
  · rintro ⟨rfl, rfl⟩
    decide
  · have h2 : wrapInt (Int.tdiv y x) * x + Int.tmod y x ≡ Int.tdiv y x * x + Int.tmod y x
        [ZMOD 2 ^ 64] := ((wrapInt_modEq _).mul_right x).add_right _
    rw [wrapInt_congr h2, Int.tdiv_add_tmod']
    exact wrapInt_of_isInt _ hyr

/-- Dividing -7 by 2 gives -3 and remainder -1 (the sign of the dividend);
dividing 7 by -2 gives -3 and remainder 1. -/
theorem step_div_mod_truncated_witness :
    (vmAt [5, -7, 2] 0 [.Div] []).step = (.returned none, vmAt [5, -3] 1 [.Div] []) ∧
    (vmAt [5, -7, 2] 0 [.Mod] []).step = (.returned none, vmAt [5, -1] 1 [.Mod] []) ∧
    (vmAt [5, 7, -2] 0 [.Div] []).step = (.returned none, vmAt [5, -3] 1 [.Div] []) ∧
    (vmAt [5, 7, -2] 0 [.Mod] []).step = (.returned none, vmAt [5, 1] 1 [.Mod] []) :=
  ⟨((step_div_mod_truncated (vmAt [5, -7, 2] 0 [.Div] []) [5] 2 (-7)
      (by decide) (by decide) (by decide) (by decide)).1 (by decide)).trans (by decide),
    ((step_div_mod_truncated (vmAt [5, -7, 2] 0 [.Mod] []) [5] 2 (-7)
      (by decide) (by decide) (by decide) (by decide)).2.1 (by decide)).trans (by decide),
    ((step_div_mod_truncated (vmAt [5, 7, -2] 0 [.Div] []) [5] (-2) 7
      (by decide) (by decide) (by decide) (by decide)).1 (by decide)).trans (by decide),
    ((step_div_mod_truncated (vmAt [5, 7, -2] 0 [.Mod] []) [5] (-2) 7
      (by decide) (by decide) (by decide) (by decide)).2.1 (by decide)).trans (by decide)⟩

/-- Claim C9: for every stack `s`, `Dup` maps `s ++ [x]` to `s ++ [x, x]`,
`Swap` maps `s ++ [y, x]` to `s ++ [x, y]` and `Rotate` maps `s ++ [z, y, x]`
to `s ++ [x, z, y]` (bottom to top); each step returns no error, advances `PC`
by one and changes nothing else, in particular nothing below the operands. -/
theorem step_dup_swap_rotate (v : VM) (s : List Int) (x y z : Int) :
    (v.fetch = some .Dup → v.Stack = s ++ [x] →
      v.step = (.returned none, { v with Stack := s ++ [x, x], PC := v.PC + 1 })) ∧
    (v.fetch = some .Swap → v.Stack = s ++ [y, x] →
      v.step = (.returned none, { v with Stack := s ++ [x, y], PC := v.PC + 1 })) ∧
    (v.fetch = some .Rotate → v.Stack = s ++ [z, y, x] →
      v.step = (.returned none, { v with Stack := s ++ [x, z, y], PC := v.PC + 1 })) := by
  refine ⟨?_, ?_, ?_⟩
  · intro hi hs
    simp [VM.step, hi, dispatch, dup, exec_bind_run, exec_pure_run, pop_top v _ _ hs, push]
  · intro hi hs
    have h1 : v.Stack = (s ++ [y]) ++ [x] := by simp [hs]
    simp [VM.step, hi, dispatch, swap, exec_bind_run, exec_pure_run, pop_top v _ _ h1,
      pop_top { v with Stack := s ++ [y] } s y rfl, push]
  · intro hi hs
    have h1 : v.Stack = (s ++ [z, y]) ++ [x] := by simp [hs]
    have h2 : ({ v with Stack := s ++ [z, y] } : VM).Stack = (s ++ [z]) ++ [y] := by simp
    simp [VM.step, hi, dispatch, rotate, exec_bind_run, exec_pure_run, pop_top v _ _ h1,
      pop_top _ _ _ h2, pop_top { v with Stack := s ++ [z] } s z rfl, push]

/-- The three shuffles of the test program, above an untouched 0: 5 is
duplicated, 5 and 15 are swapped, and 15, 5, 8 becomes 8, 15, 5. -/
theorem step_dup_swap_rotate_witness :
    (vmAt [0, 5] 0 [.Dup] []).step = (.returned none, vmAt [0, 5, 5] 1 [.Dup] []) ∧
    (vmAt [0, 5, 15] 0 [.Swap] []).step = (.returned none, vmAt [0, 15, 5] 1 [.Swap] []) ∧
    (vmAt [0, 15, 5, 8] 0 [.Rotate] []).step =
      (.returned none, vmAt [0, 8, 15, 5] 1 [.Rotate] []) :=
  ⟨(step_dup_swap_rotate (vmAt [0, 5] 0 [.Dup] []) [0] 5 0 0).1 (by decide) (by decide),
    (step_dup_swap_rotate (vmAt [0, 5, 15] 0 [.Swap] []) [0] 15 5 0).2.1 (by decide) (by decide),
    (step_dup_swap_rotate (vmAt [0, 15, 5, 8] 0 [.Rotate] []) [0] 8 5 15).2.2
      (by decide) (by decide)⟩

/-- Claim C10: parsing the source made of `N` spaces followed by `+` with a
fresh parser gives, for `N >= 5`, exactly the instruction `Push (N - 5)`, which
decodes to "push " followed by the decimal of `N - 5`, and no error; for
`N = 1, 2, 3, 4` exactly one instruction, `Dup`, `Swap`, `Rotate`, `Pop`,
decoding to "dup", "swap", "rotate", "pop", and no error; for `N = 0` no
instruction and the single error "line 0 - zero space on '+'". -/
theorem parse_spaces_then_plus (N : Nat) :
    (5 ≤ N →
      (NewParser (List.replicate N ' ' ++ ['+'])).Parse.1 = [.Push ((N : Int) - 5)] ∧
      (NewParser (List.replicate N ' ' ++ ['+'])).Parse.1.map Instruction.Decode =
        ["push " ++ toString (N - 5)] ∧
      (NewParser (List.replicate N ' ' ++ ['+'])).Parse.2.2.Error = []) ∧
    (N = 1 →
      (NewParser (List.replicate N ' ' ++ ['+'])).Parse.1 = [.Dup] ∧
      (NewParser (List.replicate N ' ' ++ ['+'])).Parse.1.map Instruction.Decode = ["dup"] ∧
      (NewParser (List.replicate N ' ' ++ ['+'])).Parse.2.2.Error = []) ∧
    (N = 2 →
      (NewParser (List.replicate N ' ' ++ ['+'])).Parse.1 = [.Swap] ∧
      (NewParser (List.replicate N ' ' ++ ['+'])).Parse.1.map Instruction.Decode = ["swap"] ∧
      (NewParser (List.replicate N ' ' ++ ['+'])).Parse.2.2.Error = []) ∧
    (N = 3 →
      (NewParser (List.replicate N ' ' ++ ['+'])).Parse.1 = [.Rotate] ∧
      (NewParser (List.replicate N ' ' ++ ['+'])).Parse.1.map Instruction.Decode = ["rotate"] ∧
      (NewParser (List.replicate N ' ' ++ ['+'])).Parse.2.2.Error = []) ∧
    (N = 4 →
      (NewParser (List.replicate N ' ' ++ ['+'])).Parse.1 = [.Pop] ∧
      (NewParser (List.replicate N ' ' ++ ['+'])).Parse.1.map Instruction.Decode = ["pop"] ∧
      (NewParser (List.replicate N ' ' ++ ['+'])).Parse.2.2.Error = []) ∧
    (N = 0 →
      (NewParser (List.replicate N ' ' ++ ['+'])).Parse.1 = [] ∧
      (NewParser (List.replicate N ' ' ++ ['+'])).Parse.2.2.Error =
        ["line 0 - zero space on '+'"]) := by
  rw [parse_run_then]
  refine ⟨?_, ?_, ?_, ?_, ?_, ?_⟩
  · intro h5
    have hN : ((N : Int) - 5) = ((N - 5 : Nat) : Int) := by omega
    have h0 : ¬ ((N : Int) = 0) := by omega
    have h1 : ¬ ((N : Int) = 1) := by omega
    have h2 : ¬ ((N : Int) = 2) := by omega
    have h3 : ¬ ((N : Int) = 3) := by omega
    have h4 : ¬ ((N : Int) = 4) := by omega
    simp [parseRune, NewParser, getInstForStack, h0, h1, h2, h3, h4, Instruction.Decode, hN,
      toString_natCast]
  · intro h
    subst h
    simp [parseRune, NewParser, getInstForStack, Instruction.Decode]
  · intro h
    subst h
    simp [parseRune, NewParser, getInstForStack, Instruction.Decode]
  · intro h
    subst h
    simp [parseRune, NewParser, getInstForStack, Instruction.Decode]
  · intro h
    subst h
    simp [parseRune, NewParser, getInstForStack, Instruction.Decode]
  · intro h0
    subst h0
    simp [NewParser, parseRune, Parser.AddError]
    rfl

/-- Six spaces and `+` parse to `Push 1`, decoded "push 1"; three spaces and `+`
to `Rotate`; `+` alone to the error. -/
theorem parse_spaces_then_plus_witness :
    ((NewParser (List.replicate 6 ' ' ++ ['+'])).Parse.1 = [.Push (((6 : Nat) : Int) - 5)] ∧
      (NewParser (List.replicate 6 ' ' ++ ['+'])).Parse.1.map Instruction.Decode =
        ["push " ++ toString (6 - 5)] ∧
      (NewParser (List.replicate 6 ' ' ++ ['+'])).Parse.2.2.Error = []) ∧
    ((NewParser (List.replicate 3 ' ' ++ ['+'])).Parse.1 = [.Rotate] ∧
      (NewParser (List.replicate 3 ' ' ++ ['+'])).Parse.1.map Instruction.Decode = ["rotate"] ∧
      (NewParser (List.replicate 3 ' ' ++ ['+'])).Parse.2.2.Error = []) ∧
    ((NewParser (List.replicate 0 ' ' ++ ['+'])).Parse.1 = [] ∧
      (NewParser (List.replicate 0 ' ' ++ ['+'])).Parse.2.2.Error =
        ["line 0 - zero space on '+'"]) :=
  ⟨(parse_spaces_then_plus 6).1 (by decide),
    (parse_spaces_then_plus 3).2.2.2.1 rfl,
    (parse_spaces_then_plus 0).2.2.2.2.2 rfl⟩

/-! ## Resolution by space count -/

theorem tmod_natCast (n k : Nat) : Int.tmod (n : Int) (k : Int) = ((n % k : Nat) : Int) :=
  (Int.ofNat_tmod n k).symm

theorem getInstForCalc_nat (n : Nat) :
    getInstForCalc n = [Instruction.Plus, .Minus, .Mul, .Div, .Mod].getD (n % 5) nilInst := by
  have h : Int.tmod (n : Int) 5 = ((n % 5 : Nat) : Int) := tmod_natCast n 5
  have hlt : n % 5 < 5 := Nat.mod_lt _ (by norm_num)
  unfold getInstForCalc
  rw [h]
  interval_cases (n % 5) <;> simp

theorem getInstForOutput_nat (n : Nat) :
    getInstForOutput n = [Instruction.OutputN, .OutputC].getD (n % 2) nilInst := by
  have h : Int.tmod (n : Int) 2 = ((n % 2 : Nat) : Int) := tmod_natCast n 2
  have hlt : n % 2 < 2 := Nat.mod_lt _ (by norm_num)
  unfold getInstForOutput
  rw [h]
  interval_cases (n % 2) <;> simp

theorem getInstForInput_nat (n : Nat) :
    getInstForInput n = [Instruction.InputN, .InputC].getD (n % 2) nilInst := by
  have h : Int.tmod (n : Int) 2 = ((n % 2 : Nat) : Int) := tmod_natCast n 2
  have hlt : n % 2 < 2 := Nat.mod_lt _ (by norm_num)
  unfold getInstForInput
  rw [h]
  interval_cases (n % 2) <;> simp

/-! ## Runes the parser ignores -/

theorem sameVars_refl (a : ParseVars) : SameVars a a := ⟨rfl, rfl, rfl⟩

theorem sameVars_parseRune (a b : ParseVars) (h : SameVars a b) (c : Char) :
    SameVars (parseRune a c) (parseRune b c) := by
  obtain ⟨h1, h2, h3⟩ := h
  unfold parseRune
  rw [h1, h2, h3]
  repeat' split
  all_goals first
    | exact ⟨rfl, rfl, rfl⟩
    | exact ⟨h1, h2, h3⟩

theorem sameVars_parseLoop (src : List Char) (a b : ParseVars) (h : SameVars a b) :
    SameVars (parseLoop a src) (parseLoop b src) := by
  induction src generalizing a b with
  | nil => exact h
  | cons c src ih => exact ih _ _ (sameVars_parseRune a b h c)

theorem parseRune_transparent (a : ParseVars) (c : Char) (hc : isMarker c = false) :
    SameVars (parseRune a c) a := by
  simp only [isMarker, Bool.or_eq_false_iff, beq_eq_false_iff_ne, ne_eq] at hc
  obtain ⟨⟨⟨⟨⟨⟨h1, h2⟩, h3⟩, h4⟩, h5⟩, h6⟩, h7⟩ := hc
  unfold parseRune
  simp only [h1, h2, h3, h4, h5, h6, h7, if_false]
  split <;> exact ⟨rfl, rfl, rfl⟩

theorem parseLoop_filter (src : List Char) (a b : ParseVars) (h : SameVars a b) :
    SameVars (parseLoop a (src.filter isMarker)) (parseLoop b src) := by
  induction src generalizing a b with
  | nil => exact h
  | cons c src ih =>
    by_cases hc : isMarker c = true
    · rw [List.filter_cons_of_pos hc]
      exact ih _ _ (sameVars_parseRune a b h c)
    · have hc2 : isMarker c = false := by simpa using hc
      rw [List.filter_cons_of_neg hc]
      have h2 := parseRune_transparent b c hc2
      exact ih _ _ ⟨h.1.trans h2.1.symm, h.2.1.trans h2.2.1.symm, h.2.2.trans h2.2.2.symm⟩

/-! ## The error list -/

theorem parseLoop_snoc (st : ParseVars) (pre : List Char) (c : Char) :
    parseLoop st (pre ++ [c]) = parseRune (parseLoop st pre) c := by
  simp [parseLoop, List.foldl_append]

theorem parseRune_line (st : ParseVars) (c : Char) :
    (parseRune st c).p.Line = st.p.Line + (if c = newline then 1 else 0) := by
  unfold parseRune
  by_cases h : c = newline
  · subst h
    simp [newline, backtick, apostrophe, Parser.AddError]
  · simp only [h, if_false]
    repeat' split
    all_goals simp [Parser.AddError]

theorem parseLoop_line (src : List Char) (st : ParseVars) :
    (parseLoop st src).p.Line = st.p.Line + (src.count newline : Nat) := by
  induction src generalizing st with
  | nil => simp [parseLoop]
  | cons c src ih =>
    have h : parseLoop st (c :: src) = parseLoop (parseRune st c) src := rfl
    rw [h, ih, parseRune_line, List.count_cons]
    by_cases hc : c = newline
    · simp [hc]; omega
    · simp [hc]

theorem parseRune_error (st : ParseVars) (c : Char) :
    (parseRune st c).p.Error = st.p.Error ++
      (if c = '+' ∧ st.spaces = 0 then
        ["line " ++ toString st.p.Line ++ " - zero space on '+'"]
      else if c = backtick ∧ (st.label.lookup st.spaces).isSome then
        ["line " ++ toString st.p.Line ++ " - duplicated label"]
      else []) := by
  have hb1 : ¬ (backtick = ' ') := by decide
  have hb2 : ¬ (backtick = '+') := by decide
  have hb3 : ¬ (backtick = '*') := by decide
  have hb4 : ¬ (backtick = '.') := by decide
  have hb5 : ¬ (backtick = ',') := by decide
  unfold parseRune
  by_cases h1 : c = ' '
  · subst h1
    have : ¬ (' ' = backtick) := fun h => hb1 h.symm
    simp [this]
  by_cases h2 : c = '+'
  · subst h2
    have : ¬ ('+' = backtick) := fun h => hb2 h.symm
    by_cases hs : st.spaces = 0
    · simp [hs, this, Parser.AddError]
      rw [String.append_assoc]; rfl
    · simp [hs, this, Parser.AddError]
  by_cases h3 : c = '*'
  · subst h3
    have : ¬ ('*' = backtick) := fun h => hb3 h.symm
    simp [this]
  by_cases h4 : c = '.'
  · subst h4
    have : ¬ ('.' = backtick) := fun h => hb4 h.symm
    simp [this]
  by_cases h5 : c = ','
  · subst h5
    have : ¬ (',' = backtick) := fun h => hb5 h.symm
    simp [this]
  by_cases h6 : c = backtick
  · subst h6
    simp only [h1, h2, h3, h4, h5, if_false, if_true, false_and, true_and]
    rcases hl : st.label.lookup st.spaces with _ | idx
    · simp
    · simp [Parser.AddError]
      rw [String.append_assoc]; rfl
  simp only [h1, h2, h3, h4, h5, h6, if_false, false_and]
  split
  · simp
  split <;> simp

/-! ## Markers of a label id -/

theorem labelMarkers_cons (k : Int) (st : ParseVars) (c : Char) (cs : List Char) :
    labelMarkers k st (c :: cs) =
      (if c = backtick ∧ st.spaces = k then 1 else 0) + labelMarkers k (parseRune st c) cs := rfl

theorem dupLabelErrors_cons (k : Int) (st : ParseVars) (c : Char) (cs : List Char) :
    dupLabelErrors k st (c :: cs) =
      (if c = backtick ∧ st.spaces = k ∧ (st.label.lookup k).isSome then 1 else 0) +
        dupLabelErrors k (parseRune st c) cs := rfl

theorem labelMarkers_append (k : Int) (a b : List Char) (st : ParseVars) :
    labelMarkers k st (a ++ b) = labelMarkers k st a + labelMarkers k (parseLoop st a) b := by
  induction a generalizing st with
  | nil => simp [labelMarkers, parseLoop]
  | cons c a ih =>
    have h : parseLoop st (c :: a) = parseLoop (parseRune st c) a := rfl
    rw [List.cons_append, labelMarkers_cons, labelMarkers_cons, ih, h]
    omega

theorem dupLabelErrors_append (k : Int) (a b : List Char) (st : ParseVars) :
    dupLabelErrors k st (a ++ b) = dupLabelErrors k st a + dupLabelErrors k (parseLoop st a) b := by
  induction a generalizing st with
  | nil => simp [dupLabelErrors, parseLoop]
  | cons c a ih =>
    have h : parseLoop st (c :: a) = parseLoop (parseRune st c) a := rfl
    rw [List.cons_append, dupLabelErrors_cons, dupLabelErrors_cons, ih, h]
    omega

theorem dupLabelErrors_le (k : Int) (src : List Char) (st : ParseVars) :
    dupLabelErrors k st src ≤ labelMarkers k st src := by
  induction src generalizing st with
  | nil => simp [dupLabelErrors, labelMarkers]
  | cons c src ih =>
    rw [dupLabelErrors_cons, labelMarkers_cons]
    have := ih (parseRune st c)
    by_cases h : c = backtick ∧ st.spaces = k
    · rw [if_pos h]
      split <;> omega
    · have h2 : ¬ (c = backtick ∧ st.spaces = k ∧ (st.label.lookup k).isSome) :=
        fun h3 => h ⟨h3.1, h3.2.1⟩
      rw [if_neg h, if_neg h2]
      omega

/-- What the backtick case of the loop does. -/
theorem parseRune_backtick (st : ParseVars) :
    parseRune st backtick =
      match st.label.lookup st.spaces with
      | some _ => { st with p := st.p.AddError "duplicated label", spaces := 0 }
      | none =>
        { st with
          label := (st.spaces, (st.list.length : Int)) :: st.label
          list := st.list ++ [Instruction.Label st.spaces]
          spaces := 0 } := by
  have hb1 : ¬ (backtick = ' ') := by decide
  have hb2 : ¬ (backtick = '+') := by decide
  have hb3 : ¬ (backtick = '*') := by decide
  have hb4 : ¬ (backtick = '.') := by decide
  have hb5 : ¬ (backtick = ',') := by decide
  unfold parseRune
  simp only [hb1, hb2, hb3, hb4, hb5, if_false, if_true]

/-- A rune other than the backtick leaves the label table alone. -/
theorem parseRune_label_other (st : ParseVars) (c : Char) (hc : c ≠ backtick) :
    (parseRune st c).label = st.label := by
  unfold parseRune
  simp only [hc, if_false]
  repeat' split
  all_goals rfl

/-- A registered label id keeps its index through the loop. -/
theorem parseRune_lookup_some (st : ParseVars) (c : Char) (k i : Int)
    (h : st.label.lookup k = some i) : (parseRune st c).label.lookup k = some i := by
  by_cases hc : c = backtick
  · subst hc
    rw [parseRune_backtick]
    rcases hl : st.label.lookup st.spaces with _ | idx
    · simp only
      rw [List.lookup_cons]
      have hk : k ≠ st.spaces := by
        rintro rfl
        rw [hl] at h
        exact absurd h (by simp)
      have hk2 : (k == st.spaces) = false := by simpa using hk
      rw [hk2]; exact h
    · exact h
  · rw [parseRune_label_other st c hc]; exact h

theorem parseLoop_lookup_some (src : List Char) (st : ParseVars) (k i : Int)
    (h : st.label.lookup k = some i) : (parseLoop st src).label.lookup k = some i := by
  induction src generalizing st with
  | nil => exact h
  | cons c src ih => exact ih _ (parseRune_lookup_some st c k i h)

/-- The loop only appends to the instruction list. -/
theorem parseRune_list_prefix (st : ParseVars) (c : Char) :
    ∃ t, (parseRune st c).list = st.list ++ t := by
  unfold parseRune
  repeat' split
  all_goals first
    | exact ⟨_, rfl⟩
    | exact ⟨[], (List.append_nil _).symm⟩

theorem parseLoop_list_prefix (src : List Char) (st : ParseVars) :
    ∃ t, (parseLoop st src).list = st.list ++ t := by
  induction src generalizing st with
  | nil => exact ⟨[], by simp [parseLoop]⟩
  | cons c src ih =>
    obtain ⟨t1, h1⟩ := parseRune_list_prefix st c
    obtain ⟨t2, h2⟩ := ih (parseRune st c)
    refine ⟨t1 ++ t2, ?_⟩
    have h : parseLoop st (c :: src) = parseLoop (parseRune st c) src := rfl
    rw [h, h2, h1, List.append_assoc]

/-- Without a marker of id `k`, an unregistered `k` stays unregistered. -/
theorem parseLoop_lookup_none (k : Int) (src : List Char) (st : ParseVars)
    (h : st.label.lookup k = none) (hm : labelMarkers k st src = 0) :
    (parseLoop st src).label.lookup k = none := by
  induction src generalizing st with
  | nil => exact h
  | cons c src ih =>
    rw [labelMarkers_cons] at hm
    have hm1 : ¬ (c = backtick ∧ st.spaces = k) := by
      intro hc; simp [hc] at hm
    have hm2 : labelMarkers k (parseRune st c) src = 0 := by omega
    apply ih _ _ hm2
    by_cases hc : c = backtick
    · subst hc
      have hk : st.spaces ≠ k := fun hk => hm1 ⟨rfl, hk⟩
      rw [parseRune_backtick]
      rcases hl : st.label.lookup st.spaces with _ | idx
      · simp only
        rw [List.lookup_cons]
        have hk2 : (k == st.spaces) = false := by simpa using fun h => hk h.symm
        rw [hk2]; exact h
      · exact h
    · rw [parseRune_label_other st c hc]; exact h

/-! ## The error list read off the text -/

/-- What one loop iteration does to the space counter. -/
theorem parseRune_spaces (st : ParseVars) (c : Char) :
    (parseRune st c).spaces =
      if resetsCounter c then 0 else st.spaces + (if c = ' ' then 1 else 0) := by
  have hb1 : ¬ (backtick = ' ') := by decide
  have ha1 : ¬ (apostrophe = ' ') := by decide
  unfold parseRune
  by_cases h1 : c = ' '
  · subst h1
    have : resetsCounter ' ' = false := by decide
    simp [this]
  by_cases h2 : c = '+'
  · subst h2
    by_cases hs : st.spaces = 0 <;> simp [hs, resetsCounter]
  by_cases h3 : c = '*'
  · subst h3; simp [resetsCounter]
  by_cases h4 : c = '.'
  · subst h4; simp [resetsCounter]
  by_cases h5 : c = ','
  · subst h5; simp [resetsCounter]
  by_cases h6 : c = backtick
  · subst h6
    simp only [h1, h2, h3, h4, h5, if_false, if_true]
    have : resetsCounter backtick = true := by decide
    rw [this]
    split <;> rfl
  by_cases h7 : c = apostrophe
  · subst h7
    simp only [h1, h2, h3, h4, h5, h6, if_false, if_true]
    have : resetsCounter apostrophe = true := by decide
    rw [this]; rfl
  have hr : resetsCounter c = false := by
    simp [resetsCounter, h2, h3, h4, h5, h6, h7]
  simp only [h1, h2, h3, h4, h5, h6, h7, if_false, hr]
  split <;> simp

theorem spaceCountAt_succ (src : List Char) (n : Nat) (c : Char) (h : src[n]? = some c) :
    spaceCountAt src (n + 1) =
      if resetsCounter c then 0 else spaceCountAt src n + (if c = ' ' then 1 else 0) := by
  unfold spaceCountAt
  rw [List.take_succ, h]
  simp only [Option.toList_some, List.reverse_append, List.reverse_cons, List.reverse_nil,
    List.nil_append, List.singleton_append]
  by_cases hr : resetsCounter c = true
  · simp [List.takeWhile_cons, hr]
  · have hr2 : resetsCounter c = false := by simpa using hr
    simp only [List.takeWhile_cons, hr2, Bool.not_false, if_true, List.count_cons]
    by_cases hc : c = ' '
    · simp [hc]
    · simp [hc]

/-- The space counter of the loop is the space count read off the text. -/
theorem parseLoop_spaces_text (p : Parser) (src : List Char) (n : Nat) :
    (parseLoop (parseStart p) (src.take n)).spaces = (spaceCountAt src n : Int) := by
  induction n with
  | zero => simp [parseLoop, parseStart, spaceCountAt]
  | succ n ih =>
    rcases hc : src[n]? with _ | c
    · have hlen : src.length ≤ n := by
        rcases Nat.lt_or_ge n src.length with h | h
        · rw [List.getElem?_eq_getElem h] at hc; exact absurd hc (by simp)
        · exact h
      have h1 : src.take (n + 1) = src.take n := by
        rw [List.take_of_length_le (by omega), List.take_of_length_le hlen]
      have h2 : spaceCountAt src (n + 1) = spaceCountAt src n := by
        unfold spaceCountAt; rw [h1]
      rw [h1, h2]; exact ih
    · rw [List.take_succ, hc]
      simp only [Option.toList_some]
      rw [parseLoop_snoc, parseRune_spaces, ih, spaceCountAt_succ src n c hc]
      by_cases hr : resetsCounter c = true
      · simp [hr]
      · have hr2 : resetsCounter c = false := by simpa using hr
        simp only [hr2, Bool.false_eq_true, if_false]
        by_cases h : c = ' ' <;> simp [h]

/-- What one loop iteration does to the set of registered label ids. -/
theorem parseRune_registered (st : ParseVars) (c : Char) (k : Int) :
    ((parseRune st c).label.lookup k).isSome = true ↔
      (st.label.lookup k).isSome = true ∨ (c = backtick ∧ st.spaces = k) := by
  by_cases hc : c = backtick
  · subst hc
    rw [parseRune_backtick]
    rcases hl : st.label.lookup st.spaces with _ | idx
    · simp only
      rw [List.lookup_cons]
      by_cases hk : k = st.spaces
      · subst hk; simp
      · have hk2 : (k == st.spaces) = false := by simpa using hk
        have hk3 : ¬ (st.spaces = k) := fun h => hk h.symm
        simp [hk2, hk3]
    · simp only
      constructor
      · intro h; exact Or.inl h
      · rintro (h | ⟨_, h⟩)
        · exact h
        · rw [← h, hl]; rfl
  · rw [parseRune_label_other st c hc]
    simp [hc]

/-- The registered ids of the loop are the space counts of the backticks met. -/
theorem parseLoop_registered_text (p : Parser) (src : List Char) (n : Nat) (k : Int) :
    ((parseLoop (parseStart p) (src.take n)).label.lookup k).isSome = true ↔
      ∃ j, j < n ∧ src[j]? = some backtick ∧ (spaceCountAt src j : Int) = k := by
  induction n with
  | zero => simp [parseLoop, parseStart]
  | succ n ih =>
    rcases hc : src[n]? with _ | c
    · have hlen : src.length ≤ n := by
        rcases Nat.lt_or_ge n src.length with h | h
        · rw [List.getElem?_eq_getElem h] at hc; exact absurd hc (by simp)
        · exact h
      have h1 : src.take (n + 1) = src.take n := by
        rw [List.take_of_length_le (by omega), List.take_of_length_le hlen]
      rw [h1, ih]
      constructor
      · rintro ⟨j, hj, h⟩; exact ⟨j, by omega, h⟩
      · rintro ⟨j, hj, hb, h⟩
        refine ⟨j, ?_, hb, h⟩
        rcases Nat.lt_or_ge j n with h2 | h2
        · exact h2
        · have : j = n := by omega
          subst this
          rw [hc] at hb; exact absurd hb (by simp)
    · rw [List.take_succ, hc]
      simp only [Option.toList_some]
      rw [parseLoop_snoc, parseRune_registered, ih, parseLoop_spaces_text]
      constructor
      · rintro (⟨j, hj, h⟩ | ⟨hb, hk⟩)
        · exact ⟨j, by omega, h⟩
        · exact ⟨n, by omega, by rw [hc, hb], hk⟩
      · rintro ⟨j, hj, hb, h⟩
        rcases Nat.lt_or_ge j n with h2 | h2
        · exact Or.inl ⟨j, h2, hb, h⟩
        · have : j = n := by omega
          subst this
          rw [hc] at hb
          exact Or.inr ⟨by simpa using hb, h⟩

theorem registeredBefore_iff (src : List Char) (i : Nat) :
    registeredBefore src i = true ↔
      ∃ j, j < i ∧ src[j]? = some backtick ∧
        (spaceCountAt src j : Int) = (spaceCountAt src i : Int) := by
  unfold registeredBefore
  simp only [List.any_eq_true, List.mem_range, Bool.and_eq_true, beq_iff_eq]
  constructor
  · rintro ⟨j, hj, hb, h⟩
    exact ⟨j, hj, hb, by exact_mod_cast h⟩
  · rintro ⟨j, hj, hb, h⟩
    exact ⟨j, hj, hb, by exact_mod_cast h⟩

theorem parse_errors_below (src : List Char) (n : Nat) :
    (parseLoop (parseStart (NewParser src)) (src.take n)).p.Error = specErrorsBelow src n := by
  induction n with
  | zero => simp [parseLoop, parseStart, NewParser, specErrorsBelow]
  | succ n ih =>
    rw [specErrorsBelow, ← ih, List.take_succ]
    unfold specErrorAt
    rcases hc : src[n]? with _ | c
    · simp
    · have hline : (parseLoop (parseStart (NewParser src)) (src.take n)).p.Line =
          ((src.take n).count newline : Nat) := by
        rw [parseLoop_line]; simp [parseStart, NewParser]
      have hsp := parseLoop_spaces_text (NewParser src) src n
      have hreg : ((parseLoop (parseStart (NewParser src)) (src.take n)).label.lookup
          (parseLoop (parseStart (NewParser src)) (src.take n)).spaces).isSome = true ↔
          registeredBefore src n = true := by
        rw [parseLoop_registered_text, registeredBefore_iff, hsp]
      have hzero : (parseLoop (parseStart (NewParser src)) (src.take n)).spaces = 0 ↔
          spaceCountAt src n = 0 := by
        rw [hsp]; exact Int.natCast_eq_zero
      simp only [Option.toList_some, parseLoop_snoc, parseRune_error, hline, toString_natCast,
        hreg, hzero]

/-! ## Scanning the input -/

theorem skipSpace_nonspace (c : Char) (rest : List Char) (h : isSpace c = false) :
    skipSpace (c :: rest) = (true, c :: rest) := by
  have h13 : c ≠ Char.ofNat 13 := by
    rintro rfl; exact absurd h (by decide)
  have h10 : c ≠ Char.ofNat 10 := by
    rintro rfl; exact absurd h (by decide)
  simp [skipSpace, h13, h10, h]

theorem isInt_guarded (b : Prop) [Decidable b] (i : Int) (after : Reader) :
    IsInt (if b then ((0 : Int), after)
      else if minInt ≤ i ∧ i ≤ maxInt then (i, after) else (0, after)).1 := by
  have h0 : IsInt 0 := by decide
  by_cases hb : b
  · simp only [hb, if_true]; exact h0
  · simp only [hb, if_false]
    by_cases hr : minInt ≤ i ∧ i ≤ maxInt
    · simp only [hr, and_self, if_true]; exact hr
    · simp only [hr, if_false]; exact h0

/-- The value `fmt.Fscanf` leaves in an `int` variable is an `int`. -/
theorem fscanfD_isInt (r : Reader) : IsInt (fscanfD r).1 := by
  have h0 : IsInt 0 := by decide
  unfold fscanfD
  rcases skipSpace r.runes with ⟨ok, l⟩
  cases ok
  · exact h0
  · cases l with
    | nil => exact h0
    | cons c rest => exact isInt_guarded _ _ _

/-! ## Faults -/

theorem underflow_bind {α β : Type} {m : Exec α} {f : α → Exec β}
    (hm : UnderflowEmpties m) (hf : ∀ a, UnderflowEmpties (f a)) :
    UnderflowEmpties (m >>= f) := by
  intro v e v1 h hmsg
  rw [exec_bind_run] at h
  rcases hmv : m v with ⟨r, v2⟩
  rw [hmv] at h
  cases r with
  | error e2 =>
    simp at h
    obtain ⟨he, hv⟩ := h
    subst he; subst hv
    exact hm v _ _ hmv hmsg
  | ok a => exact hf a v2 e v1 h hmsg

theorem underflow_pure {α : Type} (a : α) : UnderflowEmpties (pure a : Exec α) := by
  intro v e v1 h
  rw [exec_pure_run] at h
  simp at h

theorem underflow_pop : UnderflowEmpties pop := by
  intro v e v1 h _
  unfold pop at h
  split at h
  · rename_i hlen
    simp at h
    obtain ⟨_, hv⟩ := h
    subst hv
    exact List.length_eq_zero.mp (by omega)
  · simp at h

theorem underflow_push (x : Int) : UnderflowEmpties (push x) := by
  intro v e v1 h
  simp [push] at h

theorem underflow_write (s : String) : UnderflowEmpties (write s) := by
  intro v e v1 h
  simp [write] at h

theorem underflow_readN : UnderflowEmpties readN := by
  intro v e v1 h
  simp [readN] at h

theorem underflow_readC : UnderflowEmpties readC := by
  intro v e v1 h
  simp [readC] at h

theorem underflow_vmPanic {α : Type} (s : String) (hs : s ≠ "insufficient stack size") :
    UnderflowEmpties (vmPanic s : Exec α) := by
  intro v e v1 h hmsg
  simp [vmPanic] at h
  obtain ⟨he, _⟩ := h
  subst he
  exact absurd hmsg hs

theorem underflow_jumpnz (t : Int) : UnderflowEmpties (jumpnz t) := by
  intro v e v1 h hmsg
  unfold jumpnz at h
  rcases hl : v.Label.lookup t with _ | idx
  · simp [hl] at h
    obtain ⟨he, _⟩ := h
    subst he
    have hne : "jump target is not found" ≠ "insufficient stack size" := by decide
    exact absurd hmsg hne
  · rcases hpop : pop v with ⟨r, v2⟩
    cases r with
    | error e2 =>
      simp [hl, hpop] at h
      obtain ⟨he, hv⟩ := h
      subst he; subst hv
      exact underflow_pop v _ _ hpop hmsg
    | ok top =>
      by_cases htop : top = 0 <;> simp [hl, hpop, htop] at h

theorem underflow_dispatch (inst : Instruction) : UnderflowEmpties (dispatch inst) := by
  have hdz : "division by zero" ≠ "insufficient stack size" := by decide
  have hun : "unknown instruction" ≠ "insufficient stack size" := by decide
  have hdivmod : ∀ (x y : Int) (r : Int),
      UnderflowEmpties (if x = 0 then vmPanic "division by zero" else push r) := by
    intro x y r
    by_cases hx : x = 0
    · simp only [hx, if_true]; exact underflow_vmPanic _ hdz
    · simp only [hx, if_false]; exact underflow_push _
  cases inst with
  | Nop => exact underflow_pure _
  | Label _ => exact underflow_pure _
  | Other _ => exact underflow_vmPanic _ hun
  | Push x => exact underflow_bind (underflow_push x) fun _ => underflow_pure _
  | Pop => exact underflow_bind underflow_pop fun _ => underflow_pure _
  | Dup =>
    exact underflow_bind
      (underflow_bind underflow_pop fun _ => underflow_bind (underflow_push _) fun _ =>
        underflow_push _)
      fun _ => underflow_pure _
  | Swap =>
    exact underflow_bind
      (underflow_bind underflow_pop fun _ => underflow_bind underflow_pop fun _ =>
        underflow_bind (underflow_push _) fun _ => underflow_push _)
      fun _ => underflow_pure _
  | Rotate =>
    exact underflow_bind
      (underflow_bind underflow_pop fun _ => underflow_bind underflow_pop fun _ =>
        underflow_bind underflow_pop fun _ => underflow_bind (underflow_push _) fun _ =>
          underflow_bind (underflow_push _) fun _ => underflow_push _)
      fun _ => underflow_pure _
  | Plus =>
    exact underflow_bind
      (underflow_bind underflow_pop fun _ => underflow_bind underflow_pop fun _ =>
        underflow_push _)
      fun _ => underflow_pure _
  | Minus =>
    exact underflow_bind
      (underflow_bind underflow_pop fun _ => underflow_bind underflow_pop fun _ =>
        underflow_push _)
      fun _ => underflow_pure _
  | Mul =>
    exact underflow_bind
      (underflow_bind underflow_pop fun _ => underflow_bind underflow_pop fun _ =>
        underflow_push _)
      fun _ => underflow_pure _
  | Div =>
    exact underflow_bind
      (underflow_bind underflow_pop fun x => underflow_bind underflow_pop fun y =>
        hdivmod x y _)
      fun _ => underflow_pure _
  | Mod =>
    exact underflow_bind
      (underflow_bind underflow_pop fun x => underflow_bind underflow_pop fun y =>
        hdivmod x y _)
      fun _ => underflow_pure _
  | JumpNZ t => exact underflow_bind (underflow_jumpnz t) fun _ => underflow_pure _
  | OutputN =>
    exact underflow_bind underflow_pop fun _ => underflow_bind (underflow_write _) fun _ =>
      underflow_pure _
  | OutputC =>
    exact underflow_bind underflow_pop fun _ => underflow_bind (underflow_write _) fun _ =>
      underflow_pure _
  | InputN =>
    exact underflow_bind underflow_readN fun _ => underflow_bind (underflow_push _) fun _ =>
      underflow_pure _
  | InputC =>
    exact underflow_bind underflow_readC fun _ => underflow_bind (underflow_push _) fun _ =>
      underflow_pure _

/-- A step that returns an error leaves the program counter where it was. -/
theorem step_error_pc (v v1 : VM) (e : VMError) (h : v.step = (.returned (some e), v1)) :
    v1.PC = v.PC := by
  unfold VM.step at h
  rcases hf : v.fetch with _ | inst
  · simp [hf] at h
  · rw [hf] at h
    simp only at h
    rcases hd : dispatch inst v with ⟨r, v2⟩
    rw [hd] at h
    cases r with
    | ok b => cases b <;> simp at h
    | error e2 =>
      simp at h
      obtain ⟨_, hv⟩ := h
      subst hv
      by_cases hj : ∃ t, inst = .JumpNZ t
      · obtain ⟨t, rfl⟩ := hj
        have hd2 : (jumpnz t >>= fun _ => (pure true : Exec Bool)) v = (.error e2, v2) := hd
        rw [exec_bind_run] at hd2
        unfold jumpnz at hd2
        rcases hl : v.Label.lookup t with _ | idx
        · simp [hl] at hd2
          rw [← hd2.2]
        · have hp := frame_pop v
          rcases hpop : pop v with ⟨r, v3⟩
          rw [hpop] at hp
          cases r with
          | error e3 =>
            simp [hl, hpop] at hd2
            rw [← hd2.2]; exact hp.2.2
          | ok top =>
            by_cases htop : top = 0 <;> simp [hl, hpop, htop, exec_pure_run] at hd2
      · have hj2 : ∀ t, inst ≠ .JumpNZ t := fun t ht => hj ⟨t, ht⟩
        have hfr := frame_dispatch inst hj2 v
        rw [hd] at hfr
        exact hfr.2.2

/-! ## Machines that run a parsed program -/

theorem fetch_of_lt (v : VM) (h0 : 0 ≤ v.PC) (h1 : v.PC < (v.Inst.length : Int)) :
    ∃ inst, v.fetch = some inst := by
  have hlt : v.PC.toNat < v.Inst.length := by omega
  refine ⟨v.Inst[v.PC.toNat], ?_⟩
  unfold VM.fetch
  rw [if_neg (by omega), List.getElem?_eq_getElem hlt]

theorem step_not_panicked (v v1 : VM) (h0 : 0 ≤ v.PC) (h1 : v.PC < (v.Inst.length : Int)) :
    v.step ≠ (.panicked, v1) := by
  obtain ⟨inst, hf⟩ := fetch_of_lt v h0 h1
  unfold VM.step
  rw [hf]
  simp only
  rcases dispatch inst v with ⟨r, v2⟩
  cases r with
  | error e => simp
  | ok b => cases b <;> simp

theorem wellFormed_step (v v1 : VM) (hw : WellFormed v) (h : v.step = (.returned none, v1)) :
    WellFormed v1 ∧ v1.Inst = v.Inst ∧ v1.Label = v.Label := by
  obtain ⟨h1, h2, h3, h4⟩ := step_ok v v1 h
  refine ⟨⟨?_, ?_⟩, h1, h2⟩
  · rw [h1, h2]; exact hw.entry
  · rw [h1]
    rcases h4 with h4 | ⟨t, h4⟩
    · have := hw.pc; omega
    · have := hw.entry t _ h4; omega

theorem wellFormed_loopState (k : Nat) (v w : VM) (hw : WellFormed v)
    (h : loopState k v = some w) : WellFormed w ∧ w.Inst = v.Inst ∧ w.Label = v.Label := by
  induction k generalizing v with
  | zero =>
    simp [loopState] at h
    subst h
    exact ⟨hw, rfl, rfl⟩
  | succ n ih =>
    unfold loopState at h
    split at h
    · rcases hs : v.step with ⟨r, v1⟩
      rw [hs] at h
      cases r with
      | panicked => simp at h
      | returned e =>
        cases e with
        | some e => simp at h
        | none =>
          simp only at h
          obtain ⟨hw1, hi, hl⟩ := wellFormed_step v v1 hw hs
          obtain ⟨hw2, hi2, hl2⟩ := ih v1 hw1 h
          exact ⟨hw2, hi2.trans hi, hl2.trans hl⟩
    · simp at h

theorem wellFormed_run (fuel : Nat) (v : VM) (hw : WellFormed v) (r : RunEnd) (w : VM)
    (h : v.Run fuel = some (r, w)) :
    r ≠ .panicked ∧ (r = .returned 0 none → w.PC = (v.Inst.length : Int)) := by
  induction fuel generalizing v with
  | zero =>
    unfold VM.Run at h
    split at h
    · simp at h
    · simp at h
      obtain ⟨hr, hv⟩ := h
      subst hr; subst hv
      have := hw.pc
      exact ⟨by simp, fun _ => by omega⟩
  | succ n ih =>
    unfold VM.Run at h
    split at h
    · rename_i hlt
      rcases hs : v.step with ⟨r1, v1⟩
      rw [hs] at h
      cases r1 with
      | panicked => exact absurd hs (step_not_panicked v v1 hw.pc.1 hlt)
      | returned e =>
        cases e with
        | some e =>
          simp at h
          obtain ⟨hr, _⟩ := h
          subst hr
          exact ⟨by simp, fun h0 => by simp at h0⟩
        | none =>
          simp only at h
          obtain ⟨hw1, hi, _⟩ := wellFormed_step v v1 hw hs
          have := ih v1 hw1 h
          rw [hi] at this
          exact this
    · simp at h
      obtain ⟨hr, hv⟩ := h
      subst hr; subst hv
      have := hw.pc
      exact ⟨by simp, fun _ => by omega⟩

theorem jumpnz_taken (v : VM) (t idx : Int) (s : List Int) (x : Int)
    (hi : v.fetch = some (.JumpNZ t)) (hl : v.Label.lookup t = some idx)
    (hs : v.Stack = s ++ [x]) (hx : x ≠ 0) :
    v.step = (.returned none, { v with Stack := s, PC := idx }) := by
  simp [VM.step, hi, dispatch, jumpnz, hl, exec_bind_run, exec_pure_run, pop_top v s x hs, hx]

/-! ## The countdown loop -/

/-- Running on after `k` loop iterations that all return `nil`. -/
theorem run_after_loopState (k : Nat) (v w : VM) (h : loopState k v = some w) (f : Nat) :
    v.Run (k + f) = w.Run f := by
  induction k generalizing v with
  | zero =>
    simp [loopState] at h
    subst h
    simp
  | succ n ih =>
    unfold loopState at h
    split at h
    · rename_i hlt
      rcases hs : v.step with ⟨r, v1⟩
      rw [hs] at h
      cases r with
      | panicked => simp at h
      | returned e =>
        cases e with
        | some e => simp at h
        | none =>
          simp only at h
          have hfuel : n + 1 + f = (n + f) + 1 := by omega
          rw [hfuel]
          conv => lhs; unfold VM.Run
          simp only [hlt, if_true, hs]
          exact ih v1 h
    · simp at h

/-- With the loop condition false, `Run` returns at once. -/
theorem run_finished (v : VM) (h : ¬ ((v.Inst.length : Int) > v.PC)) (f : Nat) :
    v.Run f = some (.returned 0 none, v) := by
  cases f <;> (unfold VM.Run; simp [h])

theorem fmtC_dot : fmtC 46 = '.' := by decide

theorem fmtC_bang : fmtC 33 = '!' := by decide

theorem countdown_iteration (n k : Int) (hk1 : 1 ≤ k) (hk2 : k ≤ maxInt) (r : Reader)
    (out : String) :
    loopState 7 ⟨[k], 1, countdown n, [(9, 1)], r, out⟩ =
      some ⟨[k - 1], if k - 1 ≠ 0 then 1 else 8, countdown n, [(9, 1)], r, out ++ "."⟩ := by
  have hw : wrapInt (k - 1) = k - 1 := by
    apply wrapInt_of_isInt
    unfold IsInt minInt maxInt; unfold maxInt at hk2
    omega
  by_cases hz : k - 1 = 0
  · simp [loopState, VM.step, VM.fetch, countdown, dispatch, exec_bind_run, exec_pure_run, pop,
      push, write, minus, dup, jumpnz, hw, hz, fmtC_dot, List.lookup]
    rfl
  · simp [loopState, VM.step, VM.fetch, countdown, dispatch, exec_bind_run, exec_pure_run, pop,
      push, write, minus, dup, jumpnz, hw, hz, fmtC_dot, List.lookup]
    rfl

theorem dots_succ (m : Nat) (out : String) : out ++ "." ++ dots m = out ++ dots (m + 1) := by
  rw [String.append_assoc]
  congr 1

theorem countdown_exit (n : Int) (r : Reader) (out : String) :
    loopState 2 ⟨[0], 8, countdown n, [(9, 1)], r, out⟩ =
      some ⟨[0], 10, countdown n, [(9, 1)], r, out ++ "!"⟩ := by
  simp [loopState, VM.step, VM.fetch, countdown, dispatch, exec_bind_run, exec_pure_run, pop,
    push, write, fmtC_bang]
  rfl

theorem countdown_loop (n : Int) (m : Nat) (hm : (m : Int) + 1 ≤ maxInt) (r : Reader)
    (out : String) (f : Nat) :
    VM.Run (7 * (m + 1) + 2 + f) ⟨[(m : Int) + 1], 1, countdown n, [(9, 1)], r, out⟩ =
      some (.returned 0 none,
        ⟨[0], 10, countdown n, [(9, 1)], r, out ++ dots (m + 1) ++ "!"⟩) := by
  induction m generalizing out with
  | zero =>
    have h1 := countdown_iteration n 1 (by norm_num) (by unfold maxInt; norm_num) r out
    have h2 := countdown_exit n r (out ++ ".")
    have hf : 7 * (0 + 1) + 2 + f = 7 + (2 + f) := by omega
    simp only [Nat.cast_zero, zero_add] at *
    rw [hf, run_after_loopState 7 _ _ h1]
    simp only [sub_self, ne_eq, not_true_eq_false, if_false]
    rw [run_after_loopState 2 _ _ h2, run_finished _ (by simp [countdown])]
    rfl
  | succ k ih =>
    have hk : ((k : Int) + 1) + 1 ≤ maxInt := by push_cast at hm; exact hm
    have h1 := countdown_iteration n ((k : Int) + 1 + 1) (by omega) hk r out
    have hne : ((k : Int) + 1 + 1 - 1 ≠ 0) := by omega
    have hsub : (k : Int) + 1 + 1 - 1 = (k : Int) + 1 := by omega
    rw [if_pos hne, hsub] at h1
    have hf : 7 * (k + 1 + 1) + 2 + f = 7 + (7 * (k + 1) + 2 + f) := by omega
    have hcast : ((k + 1 : Nat) : Int) + 1 = (k : Int) + 1 + 1 := by push_cast; ring
    rw [hf, hcast, run_after_loopState 7 _ _ h1, ih (by omega) (out ++ "."), dots_succ]

/-! ## Runs that read no input -/

theorem ignoresStdin_bind {α β : Type} {m : Exec α} {f : α → Exec β}
    (hm : IgnoresStdin m) (hf : ∀ a, IgnoresStdin (f a)) : IgnoresStdin (m >>= f) := by
  intro v r
  rw [exec_bind_run, exec_bind_run, hm v r]
  rcases m v with ⟨res, v1⟩
  cases res with
  | error e => rfl
  | ok a => exact hf a v1 r

theorem ignoresStdin_pure {α : Type} (a : α) : IgnoresStdin (pure a : Exec α) := fun _ _ => rfl

theorem ignoresStdin_pop : IgnoresStdin pop := by
  intro v r
  unfold pop withStdin
  simp only
  split <;> rfl

theorem ignoresStdin_push (x : Int) : IgnoresStdin (push x) := fun _ _ => rfl

theorem ignoresStdin_write (s : String) : IgnoresStdin (write s) := fun _ _ => rfl

theorem ignoresStdin_vmPanic {α : Type} (s : String) : IgnoresStdin (vmPanic s : Exec α) :=
  fun _ _ => rfl

theorem ignoresStdin_jumpnz (t : Int) : IgnoresStdin (jumpnz t) := by
  intro v r
  unfold jumpnz
  have hl : (withStdin r v).Label = v.Label := rfl
  rw [hl]
  rcases v.Label.lookup t with _ | idx
  · rfl
  · simp only
    rw [ignoresStdin_pop v r]
    rcases pop v with ⟨res, v1⟩
    cases res with
    | error e => rfl
    | ok top =>
      simp only
      split <;> rfl

theorem ignoresStdin_dispatch (inst : Instruction) (h1 : inst ≠ .InputN) (h2 : inst ≠ .InputC) :
    IgnoresStdin (dispatch inst) := by
  have hdivmod : ∀ (x : Int) (r : Int),
      IgnoresStdin (if x = 0 then vmPanic "division by zero" else push r) := by
    intro x r
    by_cases hx : x = 0
    · simp only [hx, if_true]; exact ignoresStdin_vmPanic _
    · simp only [hx, if_false]; exact ignoresStdin_push _
  cases inst with
  | InputN => exact absurd rfl h1
  | InputC => exact absurd rfl h2
  | Nop => exact ignoresStdin_pure _
  | Label _ => exact ignoresStdin_pure _
  | Other _ => exact ignoresStdin_vmPanic _
  | Push x => exact ignoresStdin_bind (ignoresStdin_push x) fun _ => ignoresStdin_pure _
  | Pop => exact ignoresStdin_bind ignoresStdin_pop fun _ => ignoresStdin_pure _
  | Dup =>
    exact ignoresStdin_bind
      (ignoresStdin_bind ignoresStdin_pop fun _ => ignoresStdin_bind (ignoresStdin_push _) fun _ =>
        ignoresStdin_push _)
      fun _ => ignoresStdin_pure _
  | Swap =>
    exact ignoresStdin_bind
      (ignoresStdin_bind ignoresStdin_pop fun _ => ignoresStdin_bind ignoresStdin_pop fun _ =>
        ignoresStdin_bind (ignoresStdin_push _) fun _ => ignoresStdin_push _)
      fun _ => ignoresStdin_pure _
  | Rotate =>
    exact ignoresStdin_bind
      (ignoresStdin_bind ignoresStdin_pop fun _ => ignoresStdin_bind ignoresStdin_pop fun _ =>
        ignoresStdin_bind ignoresStdin_pop fun _ => ignoresStdin_bind (ignoresStdin_push _) fun _ =>
          ignoresStdin_bind (ignoresStdin_push _) fun _ => ignoresStdin_push _)
      fun _ => ignoresStdin_pure _
  | Plus =>
    exact ignoresStdin_bind
      (ignoresStdin_bind ignoresStdin_pop fun _ => ignoresStdin_bind ignoresStdin_pop fun _ =>
        ignoresStdin_push _)
      fun _ => ignoresStdin_pure _
  | Minus =>
    exact ignoresStdin_bind
      (ignoresStdin_bind ignoresStdin_pop fun _ => ignoresStdin_bind ignoresStdin_pop fun _ =>
        ignoresStdin_push _)
      fun _ => ignoresStdin_pure _
  | Mul =>
    exact ignoresStdin_bind
      (ignoresStdin_bind ignoresStdin_pop fun _ => ignoresStdin_bind ignoresStdin_pop fun _ =>
        ignoresStdin_push _)
      fun _ => ignoresStdin_pure _
  | Div =>
    exact ignoresStdin_bind
      (ignoresStdin_bind ignoresStdin_pop fun x => ignoresStdin_bind ignoresStdin_pop fun _ =>
        hdivmod x _)
      fun _ => ignoresStdin_pure _
  | Mod =>
    exact ignoresStdin_bind
      (ignoresStdin_bind ignoresStdin_pop fun x => ignoresStdin_bind ignoresStdin_pop fun _ =>
        hdivmod x _)
      fun _ => ignoresStdin_pure _
  | JumpNZ t => exact ignoresStdin_bind (ignoresStdin_jumpnz t) fun _ => ignoresStdin_pure _
  | OutputN =>
    exact ignoresStdin_bind ignoresStdin_pop fun _ => ignoresStdin_bind (ignoresStdin_write _)
      fun _ => ignoresStdin_pure _
  | OutputC =>
    exact ignoresStdin_bind ignoresStdin_pop fun _ => ignoresStdin_bind (ignoresStdin_write _)
      fun _ => ignoresStdin_pure _

theorem mem_of_fetch (v : VM) (inst : Instruction) (h : v.fetch = some inst) :
    inst ∈ v.Inst := by
  unfold VM.fetch at h
  split at h
  · exact absurd h (by simp)
  · exact List.getElem?_mem h

/-- A step of a program without input instructions does not depend on the reader. -/
theorem step_withStdin (v : VM) (r : Reader) (h1 : Instruction.InputN ∉ v.Inst)
    (h2 : Instruction.InputC ∉ v.Inst) :
    (withStdin r v).step = ((v.step).1, withStdin r (v.step).2) := by
  unfold VM.step
  have hf : (withStdin r v).fetch = v.fetch := rfl
  rw [hf]
  rcases hfv : v.fetch with _ | inst
  · rfl
  · have hmem := mem_of_fetch v inst hfv
    have hd := ignoresStdin_dispatch inst (fun h => h1 (h ▸ hmem)) (fun h => h2 (h ▸ hmem)) v r
    simp only
    rw [hd]
    rcases dispatch inst v with ⟨res, v1⟩
    cases res with
    | error e => rfl
    | ok b => cases b <;> rfl

theorem run_withStdin (fuel : Nat) (v : VM) (r : Reader) (h1 : Instruction.InputN ∉ v.Inst)
    (h2 : Instruction.InputC ∉ v.Inst) :
    (withStdin r v).Run fuel = (v.Run fuel).map (fun x => (x.1, withStdin r x.2)) := by
  induction fuel generalizing v with
  | zero =>
    unfold VM.Run
    have hc : ((withStdin r v).Inst.length : Int) > (withStdin r v).PC ↔
        (v.Inst.length : Int) > v.PC := Iff.rfl
    by_cases hlt : (v.Inst.length : Int) > v.PC
    · simp [hc, hlt]
    · simp [hc, hlt]
  | succ n ih =>
    unfold VM.Run
    have hc : ((withStdin r v).Inst.length : Int) > (withStdin r v).PC ↔
        (v.Inst.length : Int) > v.PC := Iff.rfl
    by_cases hlt : (v.Inst.length : Int) > v.PC
    · simp only [hc, hlt, if_true]
      rw [step_withStdin v r h1 h2]
      rcases hs : v.step with ⟨e, v1⟩
      cases e with
      | panicked => rfl
      | returned err =>
        cases err with
        | some e => rfl
        | none =>
          simp only
          have hi := (step_ok v v1 hs).1
          exact ih v1 (hi ▸ h1) (hi ▸ h2)
    · simp [hc, hlt]

/-- More fuel does not change what `Run` returns. -/
theorem run_more_fuel (f k : Nat) (v : VM) (r : RunEnd × VM) (h : v.Run f = some r) :
    v.Run (f + k) = some r := by
  induction f generalizing v with
  | zero =>
    unfold VM.Run at h
    split at h
    · simp at h
    · rename_i hlt
      rw [run_finished v hlt]
      simpa using h
  | succ n ih =>
    unfold VM.Run at h
    split at h
    · rename_i hlt
      have hfuel : n + 1 + k = (n + k) + 1 := by omega
      rw [hfuel]
      conv => lhs; unfold VM.Run
      simp only [hlt, if_true]
      rcases hs : v.step with ⟨e, v1⟩
      rw [hs] at h
      cases e with
      | panicked => exact h
      | returned err =>
        cases err with
        | some e => exact h
        | none => exact ih v1 h
    · rename_i hlt
      rw [run_finished v hlt]
      simpa using h

theorem helloWorld_parse :
    (NewParser helloWorldSrc.toList).Parse.2.2.Error = [] ∧
    (NewParser helloWorldSrc.toList).Parse.1.length = 69 ∧
    Instruction.InputN ∉ (NewParser helloWorldSrc.toList).Parse.1 ∧
    Instruction.InputC ∉ (NewParser helloWorldSrc.toList).Parse.1 := by
  decide!

theorem helloWorld_run :
    ((NewVM (NewParser helloWorldSrc.toList).Parse.1
      (NewParser helloWorldSrc.toList).Parse.2.1 []).Run 69).map
        (fun r => (r.1, r.2.Stack, r.2.Stdout)) = some (.returned 0 none, [33], "Hello, world!") := by
  decide!

/-- A run of a program without input instructions gives the same exit, stack
and output for every content of the standard input and every larger fuel. -/
theorem run_any_input (inst : List Instruction) (label : List (Int × Int))
    (h1 : Instruction.InputN ∉ inst) (h2 : Instruction.InputC ∉ inst) (f : Nat)
    (x : RunEnd × List Int × String)
    (h : ((NewVM inst label []).Run f).map (fun r => (r.1, r.2.Stack, r.2.Stdout)) = some x)
    (input : List Char) (k : Nat) :
    ((NewVM inst label input).Run (f + k)).map (fun r => (r.1, r.2.Stack, r.2.Stdout)) =
      some x := by
  have hv : NewVM inst label input =
      withStdin { runes := input, canUnread := false } (NewVM inst label []) := rfl
  rw [hv, run_withStdin _ _ _ h1 h2]
  rcases hr : (NewVM inst label []).Run f with _ | r
  · rw [hr] at h; simp at h
  · rw [hr] at h
    rw [run_more_fuel f k _ r hr]
    simpa [withStdin] using h

/-! ## Claims on the parser and on whole runs -/

/-- Claim C11: operator resolution by space count is periodic.  For every `N`,
`N` spaces followed by `*` parse to exactly one instruction, the one at
position `N mod 5` of add, subtract, multiply, divide, modulo (decoded "+",
"-", "*", "/", "%"), the same as for `N + 5` spaces; `N` spaces followed by
`.` (and likewise `,`) parse to exactly one instruction, the number variant
for `N mod 2 = 0` and the character variant for `N mod 2 = 1`, the same as for
`N + 2` spaces; and in every case no parse error is recorded. -/
theorem parse_operator_periodic (N : Nat) :
    ((NewParser (List.replicate N ' ' ++ ['*'])).Parse.1 =
        [[Instruction.Plus, .Minus, .Mul, .Div, .Mod].getD (N % 5) nilInst] ∧
      (NewParser (List.replicate N ' ' ++ ['*'])).Parse.1.map Instruction.Decode =
        [["+", "-", "*", "/", "%"].getD (N % 5) ""] ∧
      (NewParser (List.replicate (N + 5) ' ' ++ ['*'])).Parse.1 =
        (NewParser (List.replicate N ' ' ++ ['*'])).Parse.1 ∧
      (NewParser (List.replicate N ' ' ++ ['*'])).Parse.2.2.Error = []) ∧
    ((NewParser (List.replicate N ' ' ++ ['.'])).Parse.1 =
        [[Instruction.OutputN, .OutputC].getD (N % 2) nilInst] ∧
      (NewParser (List.replicate N ' ' ++ ['.'])).Parse.1.map Instruction.Decode =
        [["output number", "output character"].getD (N % 2) ""] ∧
      (NewParser (List.replicate (N + 2) ' ' ++ ['.'])).Parse.1 =
        (NewParser (List.replicate N ' ' ++ ['.'])).Parse.1 ∧
      (NewParser (List.replicate N ' ' ++ ['.'])).Parse.2.2.Error = []) ∧
    ((NewParser (List.replicate N ' ' ++ [','])).Parse.1 =
        [[Instruction.InputN, .InputC].getD (N % 2) nilInst] ∧
      (NewParser (List.replicate N ' ' ++ [','])).Parse.1.map Instruction.Decode =
        [["input number", "input character"].getD (N % 2) ""] ∧
      (NewParser (List.replicate (N + 2) ' ' ++ [','])).Parse.1 =
        (NewParser (List.replicate N ' ' ++ [','])).Parse.1 ∧
      (NewParser (List.replicate N ' ' ++ [','])).Parse.2.2.Error = []) := by
  have h5 : N % 5 < 5 := Nat.mod_lt _ (by norm_num)
  have h2 : N % 2 < 2 := Nat.mod_lt _ (by norm_num)
  have e5 : (N + 5) % 5 = N % 5 := by omega
  have e2 : (N + 2) % 2 = N % 2 := by omega
  simp only [parse_run_then]
  refine ⟨?_, ?_, ?_⟩
  · have hs : ∀ n : Nat, (parseRune ⟨NewParser (List.replicate n ' ' ++ ['*']), [], [], n⟩ '*') =
        ⟨NewParser (List.replicate n ' ' ++ ['*']), [getInstForCalc n], [], 0⟩ := by
      intro n; simp [parseRune]
    rw [hs, hs, getInstForCalc_nat, getInstForCalc_nat, e5]
    refine ⟨rfl, ?_, rfl, rfl⟩
    interval_cases (N % 5) <;> rfl
  · have hs : ∀ n : Nat, (parseRune ⟨NewParser (List.replicate n ' ' ++ ['.']), [], [], n⟩ '.') =
        ⟨NewParser (List.replicate n ' ' ++ ['.']), [getInstForOutput n], [], 0⟩ := by
      intro n; simp [parseRune]
    rw [hs, hs, getInstForOutput_nat, getInstForOutput_nat, e2]
    refine ⟨rfl, ?_, rfl, rfl⟩
    interval_cases (N % 2) <;> rfl
  · have hs : ∀ n : Nat, (parseRune ⟨NewParser (List.replicate n ' ' ++ [',']), [], [], n⟩ ',') =
        ⟨NewParser (List.replicate n ' ' ++ [',']), [getInstForInput n], [], 0⟩ := by
      intro n; simp [parseRune]
    rw [hs, hs, getInstForInput_nat, getInstForInput_nat, e2]
    refine ⟨rfl, ?_, rfl, rfl⟩
    interval_cases (N % 2) <;> rfl

/-- Claim C12: take a source `a ++ backtick :: b ++ backtick :: c` in which the
two named backticks are met with the same space count `k` and are the only
markers of that count (`labelMarkers k = 2`).  Then the parse takes the
duplicated-label branch for `k` exactly once; the first marker records no
error and appends `Label k`; the second marker appends exactly one entry
"line L - duplicated label" to the error list, appends no instruction and
leaves the table alone; and in the table returned by `Parse` the id `k` still
maps to the index of the `Label k` instruction appended for the first marker. -/
theorem parse_duplicate_label (p : Parser) (a b c : List Char) (s1 s2 : ParseVars)
    (hsrc : p.Src = a ++ backtick :: (b ++ backtick :: c))
    (hs1 : s1 = parseLoop (parseStart p) a)
    (hs2 : s2 = parseLoop (parseRune s1 backtick) b)
    (hsame : s2.spaces = s1.spaces)
    (honly : labelMarkers s1.spaces (parseStart p) p.Src = 2) :
    dupLabelErrors s1.spaces (parseStart p) p.Src = 1 ∧
    (parseRune s1 backtick).p = s1.p ∧
    (parseRune s1 backtick).list = s1.list ++ [.Label s1.spaces] ∧
    (parseRune s2 backtick).p.Error =
      s2.p.Error ++ ["line " ++ toString s2.p.Line ++ " - duplicated label"] ∧
    (parseRune s2 backtick).list = s2.list ∧
    (parseRune s2 backtick).label = s2.label ∧
    p.Parse.2.1.lookup s1.spaces = some (s1.list.length : Int) ∧
    p.Parse.1[s1.list.length]? = some (.Label s1.spaces) := by
  -- the markers of the id are the two named ones
  have hm := honly
  rw [hsrc, labelMarkers_append, labelMarkers_cons, labelMarkers_append, labelMarkers_cons,
    ← hs1, ← hs2, if_pos ⟨rfl, rfl⟩, if_pos ⟨rfl, hsame⟩] at hm
  have hma : labelMarkers s1.spaces (parseStart p) a = 0 := by omega
  have hmb : labelMarkers s1.spaces (parseRune s1 backtick) b = 0 := by omega
  have hmc : labelMarkers s1.spaces (parseRune s2 backtick) c = 0 := by omega
  -- the first marker registers the id
  have hnone : s1.label.lookup s1.spaces = none := by
    rw [hs1]
    have h := parseLoop_lookup_none (parseLoop (parseStart p) a).spaces a (parseStart p)
      (by simp [parseStart]) (by rw [← hs1]; exact hma)
    exact h
  have hfirst : parseRune s1 backtick =
      { s1 with
        label := (s1.spaces, (s1.list.length : Int)) :: s1.label
        list := s1.list ++ [Instruction.Label s1.spaces]
        spaces := 0 } := by
    rw [parseRune_backtick, hnone]
  have hreg1 : (parseRune s1 backtick).label.lookup s1.spaces = some (s1.list.length : Int) := by
    rw [hfirst]; simp [List.lookup_cons]
  -- the second marker finds it registered
  have hreg2 : s2.label.lookup s2.spaces = some (s1.list.length : Int) := by
    rw [hsame, hs2]; exact parseLoop_lookup_some b _ _ _ hreg1
  have hsecond : parseRune s2 backtick =
      { s2 with p := s2.p.AddError "duplicated label", spaces := 0 } := by
    rw [parseRune_backtick, hreg2]
  -- the whole parse
  have hparse : parseLoop (parseStart p) p.Src = parseLoop (parseRune s2 backtick) c := by
    rw [hsrc, parseLoop_append, ← hs1]
    have h1 : parseLoop s1 (backtick :: (b ++ backtick :: c)) =
        parseLoop (parseRune s1 backtick) (b ++ backtick :: c) := rfl
    rw [h1, parseLoop_append, ← hs2]
    rfl
  refine ⟨?_, ?_, ?_, ?_, ?_, ?_, ?_, ?_⟩
  · have hda := dupLabelErrors_le s1.spaces a (parseStart p)
    have hdb := dupLabelErrors_le s1.spaces b (parseRune s1 backtick)
    have hdc := dupLabelErrors_le s1.spaces c (parseRune s2 backtick)
    have hreg2k : (s2.label.lookup s1.spaces).isSome := by rw [← hsame, hreg2]; rfl
    have hno : ¬ (backtick = backtick ∧ s1.spaces = s1.spaces ∧
        (s1.label.lookup s1.spaces).isSome) := by simp [hnone]
    rw [hsrc, dupLabelErrors_append, dupLabelErrors_cons, dupLabelErrors_append,
      dupLabelErrors_cons, ← hs1, ← hs2, if_neg hno, if_pos ⟨rfl, hsame, hreg2k⟩]
    omega
  · rw [hfirst]
  · rw [hfirst]
  · rw [hsecond]; simp only [Parser.AddError]
    rw [String.append_assoc]; rfl
  · rw [hsecond]
  · rw [hsecond]
  · show (parseLoop (parseStart p) p.Src).label.lookup s1.spaces = _
    rw [hparse]
    apply parseLoop_lookup_some
    rw [hsecond]
    rw [← hsame]; exact hreg2
  · show (parseLoop (parseStart p) p.Src).list[s1.list.length]? = _
    rw [hparse]
    obtain ⟨t1, h1⟩ := parseLoop_list_prefix c (parseRune s2 backtick)
    obtain ⟨t2, h2⟩ := parseLoop_list_prefix b (parseRune s1 backtick)
    have h3 : (parseRune s2 backtick).list = s2.list := by rw [hsecond]
    rw [h1, h3, hs2, h2, hfirst]
    simp only [List.append_assoc]
    rw [List.getElem?_append_right (le_refl _)]
    simp

/-- Two markers of id 2 with a `+` and another label between and after them. -/
theorem parse_duplicate_label_witness :
    dupLabelErrors 2 (parseStart (NewParser
      [' ', ' ', backtick, ' ', '+', ' ', ' ', backtick, newline, ' ', backtick]))
      [' ', ' ', backtick, ' ', '+', ' ', ' ', backtick, newline, ' ', backtick] = 1 ∧
    (NewParser [' ', ' ', backtick, ' ', '+', ' ', ' ', backtick, newline, ' ', backtick]
      ).Parse.2.1.lookup 2 = some 0 ∧
    (NewParser [' ', ' ', backtick, ' ', '+', ' ', ' ', backtick, newline, ' ', backtick]
      ).Parse.1[0]? = some (.Label 2) :=
  ⟨(parse_duplicate_label
      (NewParser [' ', ' ', backtick, ' ', '+', ' ', ' ', backtick, newline, ' ', backtick])
      [' ', ' '] [' ', '+', ' ', ' '] [newline, ' ', backtick]
      ⟨NewParser [' ', ' ', backtick, ' ', '+', ' ', ' ', backtick, newline, ' ', backtick],
        [], [], 2⟩
      ⟨NewParser [' ', ' ', backtick, ' ', '+', ' ', ' ', backtick, newline, ' ', backtick],
        [.Label 2, .Dup], [(2, 0)], 2⟩
      (by decide!) (by decide!) (by decide!) (by decide!) (by decide!)).1,
    (parse_duplicate_label
      (NewParser [' ', ' ', backtick, ' ', '+', ' ', ' ', backtick, newline, ' ', backtick])
      [' ', ' '] [' ', '+', ' ', ' '] [newline, ' ', backtick]
      ⟨NewParser [' ', ' ', backtick, ' ', '+', ' ', ' ', backtick, newline, ' ', backtick],
        [], [], 2⟩
      ⟨NewParser [' ', ' ', backtick, ' ', '+', ' ', ' ', backtick, newline, ' ', backtick],
        [.Label 2, .Dup], [(2, 0)], 2⟩
      (by decide!) (by decide!) (by decide!) (by decide!) (by decide!)).2.2.2.2.2.2.1,
    (parse_duplicate_label
      (NewParser [' ', ' ', backtick, ' ', '+', ' ', ' ', backtick, newline, ' ', backtick])
      [' ', ' '] [' ', '+', ' ', ' '] [newline, ' ', backtick]
      ⟨NewParser [' ', ' ', backtick, ' ', '+', ' ', ' ', backtick, newline, ' ', backtick],
        [], [], 2⟩
      ⟨NewParser [' ', ' ', backtick, ' ', '+', ' ', ' ', backtick, newline, ' ', backtick],
        [.Label 2, .Dup], [(2, 0)], 2⟩
      (by decide!) (by decide!) (by decide!) (by decide!) (by decide!)).2.2.2.2.2.2.2⟩

/-- Claim C13: parse errors are accumulated, not fail-fast.  For every source
parsed by a fresh parser the error list is `specErrors`, the list read off the
source text alone: in source order, one entry for each `+` preceded by zero
spaces and one for each backtick whose space count is that of an earlier
backtick, each "line L - message" with `L` the number of newlines before the
offending rune.  After such a rune the space counter is 0, and parsing `+`
followed by `s` gives the same instructions and label table as parsing `s`. -/
theorem parse_errors_accumulate (s : List Char) :
    (NewParser s).Parse.2.2.Error = specErrors s ∧
    (NewParser ('+' :: s)).Parse.1 = (NewParser s).Parse.1 ∧
    (NewParser ('+' :: s)).Parse.2.1 = (NewParser s).Parse.2.1 ∧
    (∀ (st : ParseVars) (c : Char), c = '+' ∨ c = backtick → (parseRune st c).spaces = 0) := by
  refine ⟨?_, ?_, ?_, ?_⟩
  · have h := parse_errors_below s s.length
    rw [List.take_length] at h
    exact h
  · have h := sameVars_parseLoop s (parseRune (parseStart (NewParser ('+' :: s))) '+')
      (parseStart (NewParser s)) (by simp [SameVars, parseRune, parseStart])
    exact h.1
  · have h := sameVars_parseLoop s (parseRune (parseStart (NewParser ('+' :: s))) '+')
      (parseStart (NewParser s)) (by simp [SameVars, parseRune, parseStart])
    exact h.2.1
  · intro st c hc
    have hb2 : ¬ (backtick = '+') := by decide
    have hb1 : ¬ (backtick = ' ') := by decide
    have hb3 : ¬ (backtick = '*') := by decide
    have hb4 : ¬ (backtick = '.') := by decide
    have hb5 : ¬ (backtick = ',') := by decide
    rcases hc with rfl | rfl
    · unfold parseRune
      by_cases hs : st.spaces = 0 <;> simp [hs]
    · unfold parseRune
      simp only [hb1, hb2, hb3, hb4, hb5, if_false, if_true]
      split <;> rfl

/-- A source with a stray `+` on line 0, a label declared on line 1 and
declared again on line 2, followed by another stray `+`; and the source space,
apostrophe, `+`, where the apostrophe restarts the count. -/
theorem parse_errors_accumulate_witness :
    specErrors ['+', newline, ' ', backtick, newline, ' ', backtick, '+'] =
      ["line 0 - zero space on '+'", "line 2 - duplicated label",
        "line 2 - zero space on '+'"] ∧
    specErrors [' ', apostrophe, '+'] = ["line 0 - zero space on '+'"] :=
  ⟨(parse_errors_accumulate
      ['+', newline, ' ', backtick, newline, ' ', backtick, '+']).1.symm.trans (by decide!),
    (parse_errors_accumulate [' ', apostrophe, '+']).1.symm.trans (by decide!)⟩

/-- Claim C14: newlines and all runes other than space, `+`, `*`, `.`, `,`,
backtick and apostrophe (the runes with `isMarker c = false`) are transparent:
deleting every such rune from a source leaves the instruction list and the
label table returned by `Parse` unchanged, so they do not reset the space
counter. -/
theorem parse_ignores_other_runes (s : List Char) :
    (NewParser (s.filter isMarker)).Parse.1 = (NewParser s).Parse.1 ∧
    (NewParser (s.filter isMarker)).Parse.2.1 = (NewParser s).Parse.2.1 ∧
    (∀ c, isMarker c = false ↔
      c ≠ ' ' ∧ c ≠ '+' ∧ c ≠ '*' ∧ c ≠ '.' ∧ c ≠ ',' ∧ c ≠ backtick ∧ c ≠ apostrophe) ∧
    isMarker newline = false := by
  have h := parseLoop_filter s (parseStart (NewParser (s.filter isMarker)))
    (parseStart (NewParser s)) ⟨rfl, rfl, rfl⟩
  refine ⟨h.1, h.2.1, ?_, by decide⟩
  intro c
  simp [isMarker, and_assoc]

/-- Claim C15, the statement as written fails: for `n = 4` the countdown
program returns exit code 0 with the output "....!", but its final stack is
`[0]` (the counter, left at zero by the last jump), not the empty stack. -/
theorem countdown_stack_counterexample :
    ((NewVM (countdown 4) [(9, 1)] []).Run 31).map (fun r => (r.1, r.2.Stack, r.2.Stdout)) =
      some (.returned 0 none, [0], "....!") ∧
    ([0] : List Int) ≠ [] := by
  decide!

/-- Claim C15, amended: for every `int` `n >= 1`, running the countdown program
push(n), label(9), push(46), output-character, push(1), subtract, duplicate,
jump-if-nonzero(9), push(33), output-character with the label table `9 -> 1`
from the empty stack, on any input, returns after `7 * n + 3` loop iterations
(and for every larger fuel) with exit code 0 and no fault; the output is
exactly `n` dots followed by `!`, `PC` is 10 and the stack is `[0]`. -/
theorem countdown_run (n : Nat) (h1 : 1 ≤ n) (h2 : (n : Int) ≤ maxInt) (input : List Char)
    (f : Nat) :
    (NewVM (countdown n) [(9, 1)] input).Run (7 * n + 3 + f) =
      some (.returned 0 none,
        { Stack := [0], PC := 10, Inst := countdown n, Label := [(9, 1)],
          Stdin := { runes := input, canUnread := false }, Stdout := dots n ++ "!" }) := by
  obtain ⟨m, rfl⟩ : ∃ m, n = m + 1 := ⟨n - 1, by omega⟩
  have hstart : loopState 1 (NewVM (countdown (m + 1 : Nat)) [(9, 1)] input) =
      some ⟨[((m + 1 : Nat) : Int)], 1, countdown (m + 1 : Nat), [(9, 1)],
        { runes := input, canUnread := false }, ""⟩ := by
    simp [loopState, NewVM, VM.step, VM.fetch, countdown, dispatch, exec_bind_run,
      exec_pure_run, push]
  have hf : 7 * (m + 1) + 3 + f = 1 + (7 * (m + 1) + 2 + f) := by omega
  have hcast : ((m + 1 : Nat) : Int) = (m : Int) + 1 := by push_cast; ring
  rw [hf, run_after_loopState 1 _ _ hstart]
  rw [hcast] at h2 ⊢
  rw [countdown_loop _ m h2]
  simp

/-- The run of the test: `n = 4` prints four dots and `!`. -/
theorem countdown_run_witness :
    (NewVM (countdown ((4 : Nat) : Int)) [(9, 1)] []).Run (7 * 4 + 3 + 0) =
      some (.returned 0 none,
        { Stack := [0], PC := 10, Inst := countdown ((4 : Nat) : Int), Label := [(9, 1)],
          Stdin := { runes := [], canUnread := false }, Stdout := dots 4 ++ "!" }) :=
  countdown_run 4 (by decide) (by decide) [] 0

/-- Claim C16: the "Hello, world!" source of `TestHelloWorld` parses with an
empty error list into 69 instructions, and the machine built by `NewVM` from
the parsed list and table, started on the empty stack with any content of the
standard input, returns from `Run` (69 loop iterations, and every larger fuel)
with exit code 0 and no error, having written exactly "Hello, world!"; the
stack then holds the last character code, 33. -/
theorem hello_world_end_to_end (input : List Char) (fuel : Nat) (hf : 69 ≤ fuel) :
    (NewParser helloWorldSrc.toList).Parse.2.2.Error = [] ∧
    (NewParser helloWorldSrc.toList).Parse.1.length = 69 ∧
    ((NewVM (NewParser helloWorldSrc.toList).Parse.1 (NewParser helloWorldSrc.toList).Parse.2.1
        input).Run fuel).map (fun r => (r.1, r.2.Stack, r.2.Stdout)) =
      some (.returned 0 none, [33], "Hello, world!") := by
  obtain ⟨k, rfl⟩ : ∃ k, fuel = 69 + k := ⟨fuel - 69, by omega⟩
  exact ⟨helloWorld_parse.1, helloWorld_parse.2.1,
    run_any_input _ _ helloWorld_parse.2.2.1 helloWorld_parse.2.2.2 69 _ helloWorld_run input k⟩

/-- The run of the test with an empty standard input and exactly 69 iterations. -/
theorem hello_world_end_to_end_witness :
    (NewParser helloWorldSrc.toList).Parse.2.2.Error = [] ∧
    (NewParser helloWorldSrc.toList).Parse.1.length = 69 ∧
    ((NewVM (NewParser helloWorldSrc.toList).Parse.1 (NewParser helloWorldSrc.toList).Parse.2.1
        []).Run 69).map (fun r => (r.1, r.2.Stack, r.2.Stdout)) =
      some (.returned 0 none, [33], "Hello, world!") :=
  hello_world_end_to_end [] 69 (le_refl 69)

/-- Claim C17: tracing does not affect behaviour.  For every machine and every
bound on the loop, `RunWithDebug` returns exactly when `Run` does, with the
same exit code, the same fault and the same final machine (stack, `PC`,
program output, input); the only difference is the text appended to the
diagnostic stream. -/
theorem runWithDebug_same_computation (fuel : Nat) (v : VM) (stderr : String) :
    (v.RunWithDebug fuel stderr).map (fun r => (r.1, r.2.1)) = v.Run fuel ∧
    (∀ r, v.RunWithDebug fuel stderr = some r → ∃ lines, r.2.2 = stderr ++ lines) := by
  induction fuel generalizing v stderr with
  | zero =>
    unfold VM.RunWithDebug VM.Run
    split
    · simp
    · simp
      exact ⟨"", (String.append_empty _).symm⟩
  | succ n ih =>
    unfold VM.RunWithDebug VM.Run
    split
    · rcases hs : v.step with ⟨r, v1⟩
      cases r with
      | panicked =>
        simp
        exact ⟨"", (String.append_empty _).symm⟩
      | returned e =>
        cases e with
        | some e =>
          simp
          exact ⟨"", (String.append_empty _).symm⟩
        | none =>
          simp only
          refine ⟨(ih v1 _).1, fun r hr => ?_⟩
          obtain ⟨lines, hl⟩ := (ih v1 _).2 r hr
          exact ⟨debugLine v1 ++ lines, by rw [hl, String.append_assoc]⟩
    · simp
      exact ⟨"", (String.append_empty _).symm⟩

/-- Claim C18: input reads are lenient.  Whatever the reader holds, a step on
`InputN` or `InputC` returns no error, pushes exactly one value (what
`fmt.Fscanf` left in the zero-initialised variable) on top of the unchanged
stack and advances `PC` by one.  For `InputN` the value is an `int`; it is 0
when the input is exhausted and 0 when the input is not numeric (its first
rune is neither a space, a sign nor a digit).  For `InputC` the value is 0 on
exhausted input, which stays as it is, and otherwise the code point of the
next rune, which is consumed. -/
theorem step_input_lenient (v : VM) :
    (v.fetch = some .InputN →
      v.step = (.returned none,
        { v with Stack := v.Stack ++ [(fscanfD v.Stdin).1], Stdin := (fscanfD v.Stdin).2,
                 PC := v.PC + 1 }) ∧
      IsInt (fscanfD v.Stdin).1 ∧
      (v.Stdin.runes = [] → (fscanfD v.Stdin).1 = 0) ∧
      (∀ c rest, v.Stdin.runes = c :: rest → isSpace c = false → c ≠ '+' → c ≠ '-' →
        c.isDigit = false → (fscanfD v.Stdin).1 = 0)) ∧
    (v.fetch = some .InputC →
      v.step = (.returned none,
        { v with Stack := v.Stack ++ [(fscanfC v.Stdin).1], Stdin := (fscanfC v.Stdin).2,
                 PC := v.PC + 1 }) ∧
      (v.Stdin.runes = [] → (fscanfC v.Stdin).1 = 0 ∧ (fscanfC v.Stdin).2 = v.Stdin) ∧
      (∀ c rest, v.Stdin.runes = c :: rest →
        (fscanfC v.Stdin).1 = (c.toNat : Int) ∧ (fscanfC v.Stdin).2.runes = rest)) := by
  constructor
  · intro hi
    refine ⟨?_, fscanfD_isInt _, ?_, ?_⟩
    · simp [VM.step, hi, dispatch, exec_bind_run, exec_pure_run, readN, push]
    · intro he
      simp [fscanfD, he, skipSpace]
    · intro c rest he hsp hplus hminus hdig
      unfold fscanfD
      rw [he, skipSpace_nonspace c rest hsp]
      simp [hplus, hminus, isNumberRune, hdig]
  · intro hi
    refine ⟨?_, ?_, ?_⟩
    · simp [VM.step, hi, dispatch, exec_bind_run, exec_pure_run, readC, push]
    · intro he
      simp [fscanfC, he]
    · intro c rest he
      simp [fscanfC, he]

/-- Reading from a buffer: "42 7" gives 42 and leaves " 7"; "1_000" gives 1 and
leaves "_000"; from a reader that cannot unread, "-12 34" gives -12 and leaves
"34"; "abc" and the empty input give 0; the character read of "Zy" gives 90
and leaves "y", and 0 on the empty input. -/
theorem step_input_lenient_witness :
    ((vmAt [5] 0 [.InputN] []).SetStdin ⟨['4', '2', ' ', '7'], true⟩).step =
      (.returned none, (vmAt [5, 42] 1 [.InputN] []).SetStdin ⟨[' ', '7'], true⟩) ∧
    ((vmAt [5] 0 [.InputN] []).SetStdin ⟨['1', '_', '0', '0', '0'], true⟩).step =
      (.returned none, (vmAt [5, 1] 1 [.InputN] []).SetStdin ⟨['_', '0', '0', '0'], true⟩) ∧
    ((vmAt [5] 0 [.InputN] []).SetStdin ⟨['-', '1', '2', ' ', '3', '4'], false⟩).step =
      (.returned none, (vmAt [5, -12] 1 [.InputN] []).SetStdin ⟨['3', '4'], false⟩) ∧
    ((vmAt [5] 0 [.InputN] []).SetStdin ⟨['a', 'b', 'c'], true⟩).step =
      (.returned none, (vmAt [5, 0] 1 [.InputN] []).SetStdin ⟨['a', 'b', 'c'], true⟩) ∧
    ((vmAt [5] 0 [.InputN] []).SetStdin ⟨[], true⟩).step =
      (.returned none, (vmAt [5, 0] 1 [.InputN] []).SetStdin ⟨[], true⟩) ∧
    ((vmAt [5] 0 [.InputC] []).SetStdin ⟨['Z', 'y'], true⟩).step =
      (.returned none, (vmAt [5, 90] 1 [.InputC] []).SetStdin ⟨['y'], true⟩) ∧
    ((vmAt [5] 0 [.InputC] []).SetStdin ⟨[], false⟩).step =
      (.returned none, (vmAt [5, 0] 1 [.InputC] []).SetStdin ⟨[], false⟩) :=
  ⟨((step_input_lenient _).1 (by decide!)).1.trans (by decide!),
    ((step_input_lenient _).1 (by decide!)).1.trans (by decide!),
    ((step_input_lenient _).1 (by decide!)).1.trans (by decide!),
    ((step_input_lenient _).1 (by decide!)).1.trans (by decide!),
    ((step_input_lenient _).1 (by decide!)).1.trans (by decide!),
    ((step_input_lenient _).2 (by decide!)).1.trans (by decide!),
    ((step_input_lenient _).2 (by decide!)).1.trans (by decide!)⟩

/-- Claim C19: for every source, the machine built by `NewVM` from the results of
`Parse` keeps `0 <= PC <= len(Inst)` in every state the loop of `Run` reaches;
while `PC < len(Inst)` the fetch `v.Inst[v.PC]` is in range, so a step never
panics; every taken jump (registered target, nonzero top) lands on the `Label`
instruction of its target; hence `Run` never ends in a panic, and when it
returns exit code 0 the final `PC` is `len(Inst)`. -/
theorem parsed_program_pc_in_range (p : Parser) (input : List Char) :
    (∀ k v, loopState k (NewVM p.Parse.1 p.Parse.2.1 input) = some v →
      0 ≤ v.PC ∧ v.PC ≤ (p.Parse.1.length : Int) ∧ v.Inst = p.Parse.1 ∧
      (v.PC < (p.Parse.1.length : Int) →
        (∃ inst, v.fetch = some inst) ∧ ∀ v1, v.step ≠ (.panicked, v1)) ∧
      (∀ t idx s x, v.fetch = some (.JumpNZ t) → v.Label.lookup t = some idx →
        v.Stack = s ++ [x] → x ≠ 0 →
        v.step = (.returned none, { v with Stack := s, PC := idx }) ∧
        ({ v with Stack := s, PC := idx } : VM).fetch = some (.Label t))) ∧
    (∀ fuel r w, (NewVM p.Parse.1 p.Parse.2.1 input).Run fuel = some (r, w) →
      r ≠ .panicked ∧ (r = .returned 0 none → w.PC = (p.Parse.1.length : Int))) := by
  have hagree := labelsAgree_parseLoop p.Src (parseStart p)
    ⟨by simp [parseStart], by simp [parseStart], by simp [parseStart]⟩
  have hw0 : WellFormed (NewVM p.Parse.1 p.Parse.2.1 input) :=
    ⟨hagree.entry, by simp [NewVM]⟩
  constructor
  · intro k v hk
    obtain ⟨hw, hi, hl⟩ := wellFormed_loopState k _ v hw0 hk
    have hi2 : v.Inst = p.Parse.1 := hi
    have hpc := hw.pc
    rw [hi2] at hpc
    refine ⟨hpc.1, hpc.2, hi2, ?_, ?_⟩
    · intro hlt
      exact ⟨fetch_of_lt v hpc.1 (by rw [hi2]; exact hlt),
        fun v1 => step_not_panicked v v1 hpc.1 (by rw [hi2]; exact hlt)⟩
    · intro t idx s x hf hlk hs hx
      refine ⟨jumpnz_taken v t idx s x hf hlk hs hx, ?_⟩
      obtain ⟨h0, h1, h2⟩ := hw.entry t idx hlk
      unfold VM.fetch
      simp only
      rw [if_neg (by omega)]
      exact h2
  · intro fuel r w h
    exact wellFormed_run fuel _ hw0 r w h

/-- The source `push 0`, label 1, jump to 1 falls through the jump and
returns exit code 0 at `PC = 3`. -/
theorem parsed_program_pc_in_range_witness :
    RunEnd.returned 0 none ≠ .panicked ∧
    (RunEnd.returned 0 none = .returned 0 none →
      (vmAt [] 3 [.Push 0, .Label 1, .JumpNZ 1] [(1, 1)]).PC =
        (((NewParser [' ', ' ', ' ', ' ', ' ', '+', ' ', backtick, ' ', apostrophe]).Parse.1.length
          : Nat) : Int)) :=
  (parsed_program_pc_in_range
    (NewParser [' ', ' ', ' ', ' ', ' ', '+', ' ', backtick, ' ', apostrophe]) []).2
    3 (.returned 0 none) (vmAt [] 3 [.Push 0, .Label 1, .JumpNZ 1] [(1, 1)]) (by decide!)

/-- Claim C20: a stack-underflow fault is not atomic.  Whenever a step returns
the error "insufficient stack size", the stack it leaves is empty (operands
popped before the failing `pop` are not restored) and `PC` is unchanged; for
example `Swap` on the one-element stack `[a]` faults and leaves `[]`. -/
theorem step_underflow_not_atomic (v v1 : VM) (e : VMError)
    (h : v.step = (.returned (some e), v1)) (hm : e.m = "insufficient stack size") :
    v1.Stack = [] ∧ v1.PC = v.PC ∧
    (∀ a : Int, (vmAt [a] 0 [.Swap] []).step =
      (.returned (some { m := "insufficient stack size", p := 0 }), vmAt [] 0 [.Swap] [])) := by
  refine ⟨?_, step_error_pc v v1 e h, ?_⟩
  · unfold VM.step at h
    rcases hf : v.fetch with _ | inst
    · simp [hf] at h
    · rw [hf] at h
      simp only at h
      rcases hd : dispatch inst v with ⟨r, v2⟩
      rw [hd] at h
      cases r with
      | ok b => cases b <;> simp at h
      | error e2 =>
        simp at h
        obtain ⟨he, hv⟩ := h
        subst he; subst hv
        exact underflow_dispatch inst v _ _ hd hm
  · intro a
    simp [VM.step, VM.fetch, vmAt, dispatch, swap, exec_bind_run, pop]

/-- Rotate on the two-element stack 1, 2 faults after popping both values. -/
theorem step_underflow_not_atomic_witness :
    (vmAt [] 0 [.Rotate] []).Stack = [] ∧
    (vmAt [] 0 [.Rotate] []).PC = (vmAt [1, 2] 0 [.Rotate] []).PC :=
  ⟨(step_underflow_not_atomic (vmAt [1, 2] 0 [.Rotate] []) (vmAt [] 0 [.Rotate] [])
      { m := "insufficient stack size", p := 0 } (by decide!) rfl).1,
    (step_underflow_not_atomic (vmAt [1, 2] 0 [.Rotate] []) (vmAt [] 0 [.Rotate] [])
      { m := "insufficient stack size", p := 0 } (by decide!) rfl).2.1⟩

end Starry
